import Mathlib

/-!
Verification of the record-linkage and arbitrage-detection engine of the
Arbitrage repository (`main.py`).  Every definition below is a shallow
embedding of the corresponding Python function, keeping the source's names
where Lean allows it.  Python floats are modelled as exact rationals (`ℚ`),
Python dicts as association lists, Python sets as `Finset`.
-/

namespace Arbitrage

/- ## Character and whitespace utilities -/

/-- Python `str.lower` restricted to ASCII plus a table of common
accented Latin capitals (the team names handled by the program are
Latin-script).  Characters outside the table are unchanged. -/
def py_lower_char (c : Char) : Char :=
  if 'A' ≤ c ∧ c ≤ 'Z' then Char.ofNat (c.toNat + 32)
  else if c = 'Č' then 'č' else if c = 'Ć' then 'ć' else if c = 'Š' then 'š'
  else if c = 'Đ' then 'đ' else if c = 'Ž' then 'ž'
  else if c = 'Á' then 'á' else if c = 'À' then 'à' else if c = 'Ä' then 'ä'
  else if c = 'É' then 'é' else if c = 'È' then 'è' else if c = 'Ë' then 'ë'
  else if c = 'Í' then 'í' else if c = 'Ó' then 'ó' else if c = 'Ö' then 'ö'
  else if c = 'Ú' then 'ú' else if c = 'Ü' then 'ü' else if c = 'Ñ' then 'ñ'
  else if c = 'Ç' then 'ç' else c

/-- `strip_accents` of the source (NFKD-decompose, drop combining marks)
restricted to a table of the common precomposed Latin letters; letters that
do not NFKD-decompose (such as `đ`) are unchanged, exactly as in Python. -/
def strip_accent_char (c : Char) : Char :=
  if c = 'č' ∨ c = 'ć' ∨ c = 'ç' then 'c'
  else if c = 'š' then 's' else if c = 'ž' then 'z'
  else if c = 'á' ∨ c = 'à' ∨ c = 'â' ∨ c = 'ä' ∨ c = 'ã' ∨ c = 'å' then 'a'
  else if c = 'é' ∨ c = 'è' ∨ c = 'ê' ∨ c = 'ë' then 'e'
  else if c = 'í' ∨ c = 'ì' ∨ c = 'î' ∨ c = 'ï' then 'i'
  else if c = 'ó' ∨ c = 'ò' ∨ c = 'ô' ∨ c = 'ö' ∨ c = 'õ' then 'o'
  else if c = 'ú' ∨ c = 'ù' ∨ c = 'û' ∨ c = 'ü' ∨ c = 'ů' then 'u'
  else if c = 'ý' then 'y' else if c = 'ñ' then 'n'
  else if c = 'ř' then 'r' else if c = 'ě' then 'e'
  else c

/-- `strip_accents` on a character list. -/
def strip_accents_list (l : List Char) : List Char := l.map strip_accent_char

/-- Split a character list on whitespace runs, dropping empty pieces
(the effect of Python `re.split(r"\s+", s)` followed by dropping falsy
entries). -/
def ws_split_chars (l : List Char) : List (List Char) :=
  (l.foldr (fun c acc =>
    if c.isWhitespace then [] :: acc
    else match acc with
      | [] => [[c]]
      | w :: ws => (c :: w) :: ws) []).filter (· ≠ [])

/-- Python `re.sub(r"\s+", " ", s).strip()`: collapse whitespace runs to a
single space and trim the ends. -/
def collapse_ws (l : List Char) : List Char :=
  List.intercalate [' '] (ws_split_chars l)

/-- The apostrophe-like characters removed by `normalize_team`
(`’`, `'` and the backquote). -/
def apostrophe_chars : List Char := ['’', '\'', Char.ofNat 96]

/-- `normalize_team` of the source: lowercase, strip accents, drop
apostrophes, fold punctuation and parentheses to spaces, collapse
whitespace. -/
def normalize_team (s : String) : String :=
  let l := strip_accents_list (s.toList.map py_lower_char)
  let l := l.filter (fun c => c ∉ apostrophe_chars)
  let l := l.map (fun c => if c ∈ ['.', '-', '–', '—', '_', '/'] then ' ' else c)
  let l := l.map (fun c => if c ∈ ['(', ')'] then ' ' else c)
  String.mk (collapse_ws l)

/-- `_STOPWORDS` of the source (a Python set literal; duplicates removed). -/
def stopwords_team : List String :=
  ["fc","cf","sc","if","afc","bk","fk","kk","ac","as","cd","sd","ud","acf",
   "sv","ss","sp","ca","united","city","club","the","de","la","el","da","do",
   "del","dep","atletico","atl","calcio","cp","st","saint","saints","om",
   "psg","bc","bcf","w","wom","women","ladies"]

/-- The distinct tokens of `team_tokens`, as a deduplicated list (first
occurrences kept): the underlying list of the Python set. -/
def team_token_list (name : String) : List String :=
  (((ws_split_chars (normalize_team name).toList).map String.mk).filter
    (fun t => t ∉ stopwords_team)).dedup

/-- `team_tokens` of the source: normalized name split on whitespace with
stop words removed, as a set. -/
def team_tokens (name : String) : Finset String :=
  (team_token_list name).toFinset

/- ## difflib `SequenceMatcher.ratio` model (the source's `fuzzy`)

`fuzzy(a, b)` is `difflib.SequenceMatcher(None, a, b).ratio()`:
`2 * M / T`, where `T` is the total length and `M` the total size of the
matching blocks found by recursively locating, in each remaining window,
the longest matching block (ties resolved towards the earliest start in
`a`, then the earliest start in `b`, which is the documented contract of
`find_longest_match`).  The autojunk heuristic only alters behaviour for
sequences of length at least 200, which the call sites (team names,
24-character signatures) do not reach, so it is not modelled. -/

/-- Structural worker of `runlen`; `fuel` is `ahi - i`, which bounds the
run length. -/
def runlen_go (a b : List Char) (ahi bhi : Nat) : Nat → Nat → Nat → Nat
  | 0, _, _ => 0
  | fuel+1, i, j =>
    if i < ahi ∧ j < bhi ∧ a.getD i ' ' = b.getD j ' ' then
      runlen_go a b ahi bhi fuel (i+1) (j+1) + 1
    else 0

/-- Length of the common run of `a` and `b` starting at positions `i`, `j`,
clipped at the window ends `ahi`, `bhi`. -/
def runlen (a b : List Char) (ahi bhi i j : Nat) : Nat :=
  runlen_go a b ahi bhi (ahi - i) i j

/-- `find_longest_match` over windows `a[alo:ahi]`, `b[blo:bhi]`: the
longest matching block `(i, j, size)`, earliest in `a` then in `b`;
`(alo, blo, 0)` when there is none. -/
def flm (a b : List Char) (alo ahi blo bhi : Nat) : Nat × Nat × Nat :=
  (List.range' alo (ahi - alo)).foldl (fun best i =>
    (List.range' blo (bhi - blo)).foldl (fun best j =>
      let k := runlen a b ahi bhi i j
      if best.2.2 < k then (i, j, k) else best) best) (alo, blo, 0)

/-- Total size of the matching blocks of `get_matching_blocks` (the `M` of
`ratio`), by the recursive window splitting of difflib.  The `fuel`
argument dominates the recursion depth, which is bounded by the window
length; callers pass `a.length + 1`. -/
def matched_total (a b : List Char) : Nat → Nat → Nat → Nat → Nat → Nat
  | 0, _, _, _, _ => 0
  | fuel+1, alo, ahi, blo, bhi =>
    let r := flm a b alo ahi blo bhi
    if r.2.2 = 0 then 0
    else matched_total a b fuel alo r.1 blo r.2.1 + r.2.2 +
         matched_total a b fuel (r.1 + r.2.2) ahi (r.2.1 + r.2.2) bhi

/-- `fuzzy` of the source: `SequenceMatcher(None, a, b).ratio()`,
`2M / T` (and `1.0` when both strings are empty). -/
def fuzzy (a b : String) : ℚ :=
  let la := a.toList.length
  let lb := b.toList.length
  if la + lb = 0 then 1
  else (2 * (matched_total a.toList b.toList (la + 1) 0 la 0 lb) : ℚ) / ((la : ℚ) + (lb : ℚ))

/- ## Similarity scoring -/

/-- `token_jaccard` of the source. -/
def token_jaccard (a b : Finset String) : ℚ :=
  if a = ∅ ∨ b = ∅ then 0
  else if (a ∪ b).card = 0 then 0 else ((a ∩ b).card : ℚ) / ((a ∪ b).card : ℚ)

/-- `token_dice` of the source. -/
def token_dice (a b : Finset String) : ℚ :=
  if a = ∅ ∨ b = ∅ then 0
  else if a.card + b.card = 0 then 0
  else (2 * (a ∩ b).card : ℚ) / ((a.card : ℚ) + (b.card : ℚ))

/-- Insert a string into a lexicographically sorted list. -/
def insert_sorted (x : String) : List String → List String
  | [] => [x]
  | y :: ys => if x ≤ y then x :: y :: ys else y :: insert_sorted x ys

/-- Python `sorted` on a list of strings (code-point lexicographic, the
order of `String`'s linear order). -/
def sort_strings (l : List String) : List String := l.foldr insert_sorted []

/-- `team_signature` of the source: sorted tokens, first four characters of
each, joined, truncated to 24 characters. -/
def team_signature (name : String) : String :=
  let toks := sort_strings (team_token_list name)
  String.mk ((toks.map (fun t => t.toList.take 4)).flatten.take 24)

/-- `pat` is a prefix of `s` (character lists). -/
def starts_with_chars : List Char → List Char → Bool
  | [], _ => true
  | _ :: _, [] => false
  | p :: ps, c :: cs => p = c && starts_with_chars ps cs

/-- `pat in s` of Python: `pat` occurs as a contiguous substring of `s`. -/
def has_sub_chars (pat : List Char) : List Char → Bool
  | [] => pat.isEmpty
  | c :: cs => starts_with_chars pat (c :: cs) || has_sub_chars pat cs

/-- The source predicate testing containment of normalized names: the
normalized names are equal, one contains the other, or one starts with
the other. -/
def pref_or_contains (a_name b_name : String) : Bool :=
  let a := (normalize_team a_name).toList
  let b := (normalize_team b_name).toList
  if ¬a.isEmpty ∧ ¬b.isEmpty then
    if a = b then true
    else if has_sub_chars a b || has_sub_chars b a then true
    else if starts_with_chars a b || starts_with_chars b a then true
    else false
  else false

/-- `significant_tokens` of the source: tokens of length at least 3
containing a character in `[a-z0-9]`. -/
def significant_tokens (tokset : Finset String) : Finset String :=
  tokset.filter (fun t => 3 ≤ t.toList.length ∧
    t.toList.any (fun c => ('a' ≤ c ∧ c ≤ 'z') ∨ ('0' ≤ c ∧ c ≤ '9')))

/-- `is_token_subset` of the source. -/
def is_token_subset (a b : Finset String) : Bool :=
  (significant_tokens a).Nonempty ∧ significant_tokens a ⊆ significant_tokens b

/-- `_ngrams` of the source: the set of `n`-character substrings of `s`
(after whitespace collapsing); `{s}` when `s` is shorter than `n` and
non-empty, `∅` when `s` is empty. -/
def ngrams (s : String) (n : Nat) : Finset String :=
  let l := collapse_ws s.toList
  if l.length < n then (if l.isEmpty then ∅ else {String.mk l})
  else ((List.range (l.length - n + 1)).map (fun i => String.mk ((l.drop i).take n))).toFinset

/-- `team_char_score` of the source: 3-gram Jaccard, fuzzy ratio and
signature similarity blended `0.5 / 0.4 / 0.1`, with a `+0.12` bonus
(capped at 1) when one name contains or extends the other. -/
def team_char_score (a_name b_name : String) : ℚ :=
  let a := normalize_team a_name
  let b := normalize_team b_name
  let ng_a := ngrams a 3
  let ng_b := ngrams b 3
  let ng_score : ℚ :=
    if ng_a.Nonempty ∧ ng_b.Nonempty then
      ((ng_a ∩ ng_b).card : ℚ) / ((ng_a ∪ ng_b).card : ℚ) else 0
  let fz := fuzzy a b
  let sig_sim := fuzzy (team_signature a) (team_signature b)
  let base := 1/2 * ng_score + 2/5 * fz + 1/10 * sig_sim
  if pref_or_contains a_name b_name then min 1 (base + 3/25) else base

/-- `_side_score` of the source. -/
def side_score (nameA nameB : String) : ℚ :=
  let toksA := team_tokens nameA
  let toksB := team_tokens nameB
  let tj := token_jaccard toksA toksB
  let td := token_dice toksA toksB
  let tok := max tj td
  let subset_bonus : ℚ :=
    min ((if is_token_subset toksA toksB || is_token_subset toksB toksA then (1/5 : ℚ) else 0) +
         (if pref_or_contains nameA nameB then (1/10 : ℚ) else 0)) (1/4)
  let ch := team_char_score nameA nameB
  let w_tok : ℚ :=
    if toksA.Nonempty ∧ toksB.Nonempty ∧ (toksA ∩ toksB).Nonempty then 11/20 else 2/5
  min 1 (w_tok * tok + (1 - w_tok) * ch + subset_bonus)

/- ## The "al" guard -/

/-- Word constituents of the `\b` boundary of Python `re` (ASCII part). -/
def is_word_char (c : Char) : Bool :=
  ('a' ≤ c ∧ c ≤ 'z') ∨ ('A' ≤ c ∧ c ≤ 'Z') ∨ ('0' ≤ c ∧ c ≤ '9') ∨ c = '_'

/-- `re.search(r"\bal\b", n)`: a standalone token `al` occurs somewhere,
delimited by non-word characters or the string ends. -/
def al_token_search : Option Char → List Char → Bool
  | prev, 'a' :: 'l' :: rest =>
    if prev.all (fun p => !is_word_char p) &&
       (rest.head?).all (fun c => !is_word_char c) then true
    else al_token_search (some 'a') ('l' :: rest)
  | _, c :: rest => al_token_search (some c) rest
  | _, [] => false

/-- `has_al` of the source: the normalized name starts with `al` followed
by the end, whitespace or a hyphen, or contains a standalone `al` token. -/
def has_al (name : String) : Bool :=
  let n := (normalize_team name).toList
  let starts_al : Bool :=
    match n with
    | 'a' :: 'l' :: rest =>
      match rest with
      | [] => true
      | c :: _ => c.isWhitespace || c = '-'
    | _ => false
  starts_al || al_token_search none n

/-- `al_enforced_equal` of the source: when either name carries the `al`
token, the pair is acceptable only on exact normalized equality. -/
def al_enforced_equal (a_name b_name : String) : Bool :=
  if has_al a_name || has_al b_name then normalize_team a_name = normalize_team b_name
  else true

/- ## League tokens -/

/-- The league stop-word set of the source. -/
def stopwords_league : List String :=
  ["liga","league","division","divison","apertura","clausura","serija",
   "serie","premier","prva","druga","championship","cup","women","w","mx",
   "la","de","el"]

/-- The distinct league tokens as a deduplicated list (the underlying list
of the Python set built by `league_tokens`). -/
def league_token_list (league : String) : List String :=
  if league = "" then []
  else
    let l := strip_accents_list (league.toList.map py_lower_char)
    let l := l.map (fun c => if c ∈ ['-', '–', '—', '/', '(', ')'] then ' ' else c)
    let l := collapse_ws l
    ((((l.splitOn ' ').map String.mk).filter (fun t => 2 ≤ t.toList.length)).filter
      (fun t => t ∉ stopwords_league)).dedup

/-- `league_tokens` of the source. -/
def league_tokens (league : String) : Finset String :=
  (league_token_list league).toFinset

/-- The sorted-token signature compared by the league gate of `_match_ok`:
`"".join(sorted(lg))[:24]`, computed from the league text. -/
def league_sig (league : String) : String :=
  String.mk (((sort_strings (league_token_list league)).map String.toList).flatten.take 24)

/- ## Kickoff times -/

/-- Numeric value of a decimal digit character. -/
def digit_val (c : Char) : Nat := c.toNat - 48

/-- The hour part of the regex `([01]?\d|2[0-3])`. -/
def parse_hour : List Char → Option Nat
  | [c] => if c.isDigit then some (digit_val c) else none
  | [c1, c2] =>
    if (c1 = '0' ∨ c1 = '1') ∧ c2.isDigit then some (10 * digit_val c1 + digit_val c2)
    else if c1 = '2' ∧ (c2 = '0' ∨ c2 = '1' ∨ c2 = '2' ∨ c2 = '3') then
      some (20 + digit_val c2)
    else none
  | _ => none

/-- The minute part of the regex `[0-5]\d`. -/
def parse_min (c1 c2 : Char) : Option Nat :=
  if ('0' ≤ c1 ∧ c1 ≤ '5') ∧ c2.isDigit then some (10 * digit_val c1 + digit_val c2)
  else none

/-- Python `str.strip()`: drop leading and trailing whitespace. -/
def py_strip (l : List Char) : List Char :=
  ((l.dropWhile Char.isWhitespace).reverse.dropWhile Char.isWhitespace).reverse

/-- `_time_to_minutes` of the source: full match of `HH:MM` on the
stripped string, as minutes since midnight. -/
def time_to_minutes (t : String) : Option Nat :=
  let s := py_strip t.toList
  match s.reverse with
  | m2 :: m1 :: ':' :: hrev =>
    match parse_hour hrev.reverse, parse_min m1 m2 with
    | some h, some m => some (h * 60 + m)
    | _, _ => none
  | _ => none

/-- `_times_close` of the source. -/
def times_close (t1 t2 : String) (tolerance_min : Nat) : Bool :=
  match time_to_minutes t1, time_to_minutes t2 with
  | some m1, some m2 => Nat.dist m1 m2 ≤ tolerance_min
  | _, _ => false

/-- `_time_factor` of the source. -/
def time_factor (t1 t2 : String) : ℚ :=
  match time_to_minutes t1, time_to_minutes t2 with
  | some m1, some m2 =>
    let dt := Nat.dist m1 m2
    if dt ≤ 5 then 1 else if dt ≤ 10 then 97/100 else if dt ≤ 20 then 23/25 else 0
  | _, _ => 9/10

/- ## Records and dictionaries -/

/-- A `MatchRecord` as produced by `parse_pretty_block`: the odds dict maps
market keys to optional prices. -/
structure Rec where
  src : String
  time : String
  day : String
  date : String
  league : String
  home : String
  away : String
  match_id : String
  odds : List (String × Option ℚ)
deriving DecidableEq, Inhabited, Repr

/-- First-match lookup in an association list (a Python dict read). -/
def dGet? {α : Type} : List (String × α) → String → Option α
  | [], _ => none
  | (k0, v0) :: rest, k => if k0 = k then some v0 else dGet? rest k

/-- Python dict assignment `d[k] = v`: overwrite the entry in place, or
append it when the key is new. -/
def dSet {α : Type} : List (String × α) → String → α → List (String × α)
  | [], k, v => [(k, v)]
  | (k0, v0) :: rest, k, v =>
    if k0 = k then (k0, v) :: rest else (k0, v0) :: dSet rest k v

/-- `odds.get(k)` of Python: `None` both for a missing key and a `None`
value. -/
def odGet (od : List (String × Option ℚ)) (k : String) : Option ℚ :=
  (dGet? od k).getD none

/-- Append `x` to the group of key `k`, creating the group at the end when
the key is new: the behaviour of `defaultdict(list)` under insertion
order. -/
def add_to_groups {κ α : Type} [DecidableEq κ] :
    List (κ × List α) → κ → α → List (κ × List α)
  | [], k, x => [(k, [x])]
  | (k0, l0) :: rest, k, x =>
    if k0 = k then (k0, l0 ++ [x]) :: rest else (k0, l0) :: add_to_groups rest k x

/- ## `_match_ok` -/

/-- `_match_ok` of the source, with the default `team_threshold = 0.82`
(no call site overrides it). -/
def match_ok (a b : Rec) : Bool :=
  if ¬ times_close a.time b.time 20 then false
  else
    let tf := time_factor a.time b.time
    if tf = 0 then false
    else
      let lg1 := league_tokens a.league
      let lg2 := league_tokens b.league
      if lg1.Nonempty ∧ lg2.Nonempty ∧ (lg1 ∩ lg2) = ∅ ∧
         fuzzy (league_sig a.league) (league_sig b.league) < 1/2 then false
      else
        let straight_al := al_enforced_equal a.home b.home && al_enforced_equal a.away b.away
        let swap_al := al_enforced_equal a.home b.away && al_enforced_equal a.away b.home
        if ¬ (straight_al || swap_al) then false
        else
          let straight : ℚ :=
            if straight_al then (side_score a.home b.home + side_score a.away b.away) / 2 else -1
          let swap : ℚ :=
            if swap_al then (side_score a.home b.away + side_score a.away b.home) / 2 else -1
          let base := max straight swap
          if base < 0 then false
          else if 53/100 ≤ base * tf then true
          else
            let fz : ℚ :=
              if swap ≤ straight ∧ straight_al then
                (fuzzy (normalize_team a.home) (normalize_team b.home) +
                 fuzzy (normalize_team a.away) (normalize_team b.away)) / 2
              else if swap_al then
                (fuzzy (normalize_team a.home) (normalize_team b.away) +
                 fuzzy (normalize_team a.away) (normalize_team b.home)) / 2
              else 0
            82/100 ≤ fz ∧ 92/100 ≤ tf

/- ## Clustering (`cluster_all_sources`) -/

/-- `bucket_key` of the source: kickoff minutes divided by 10; `none` is
the separate bucket of unparseable times. -/
def bucket_key (t : String) : Option Nat := (time_to_minutes t).map (· / 10)

/-- The time buckets: indices of `records` grouped by `bucket_key` in
insertion order (`defaultdict(list)` iterated in key-creation order). -/
def bucketsOf (records : List Rec) : List (Option Nat × List Nat) :=
  (List.range records.length).foldl
    (fun bs i => add_to_groups bs (bucket_key (records.getD i default).time) i) []

/-- All ordered pairs `(idxs[ii], idxs[jj])` with `ii < jj`. -/
def pairs_of {α : Type} : List α → List (α × α)
  | [] => []
  | x :: xs => xs.map (fun y => (x, y)) ++ pairs_of xs

/-- `adj[u].append(v)`. -/
def add_edge (adj : List (List Nat)) (u v : Nat) : List (List Nat) :=
  adj.set u (adj.getD u [] ++ [v])

/-- The adjacency lists built by `cluster_all_sources`: within each time
bucket, every pair is tested with `_match_ok` and accepted pairs become
undirected edges. -/
def buildAdj (records : List Rec) : List (List Nat) :=
  (bucketsOf records).foldl (fun adj kv =>
    (pairs_of kv.2).foldl (fun adj uv =>
      if match_ok (records.getD uv.1 default) (records.getD uv.2 default) then
        add_edge (add_edge adj uv.1 uv.2) uv.2 uv.1
      else adj) adj)
    (List.replicate records.length [])

/-- Flip index `v` of the `seen` array to `True`. -/
def mark (seen : Nat → Bool) (v : Nat) : Nat → Bool :=
  fun j => if j = v then true else seen j

/-- One dequeue of the breadth-first traversal: push the unseen neighbours
of `u` onto the queue and the component, marking them seen. -/
def bfs_step (adj : List (List Nat)) (st : (Nat → Bool) × List Nat × List Nat)
    (u : Nat) : (Nat → Bool) × List Nat × List Nat :=
  (adj.getD u []).foldl (fun st v =>
    if st.1 v then st else (mark st.1 v, st.2.1 ++ [v], st.2.2 ++ [v])) st

/-- The `while q` loop of `cluster_all_sources`.  `fuel` dominates the
number of dequeues, which never exceeds the number of records (every queue
entry is pushed together with a fresh `seen` mark); callers pass
`records.length`. -/
def bfs (adj : List (List Nat)) :
    Nat → (Nat → Bool) → List Nat → List Nat → ((Nat → Bool) × List Nat)
  | 0, seen, _, comp => (seen, comp)
  | _+1, seen, [], comp => (seen, comp)
  | fuel+1, seen, u :: q, comp =>
    let st := bfs_step adj (seen, q, comp) u
    bfs adj fuel st.1 st.2.1 st.2.2

/-- The connected components of `cluster_all_sources`, as index lists. -/
def cluster_comps (records : List Rec) : List (List Nat) :=
  let n := records.length
  let adj := buildAdj records
  ((List.range n).foldl (fun (st : (Nat → Bool) × List (List Nat)) i =>
    if st.1 i then st
    else
      let r := bfs adj n (mark st.1 i) [i] [i]
      (r.1, st.2 ++ [r.2])) ((fun _ => false), [])).2

/-- `cluster_all_sources` of the source. -/
def cluster_all_sources (records : List Rec) : List (List Rec) :=
  (cluster_comps records).map (fun comp => comp.map (fun k => records.getD k default))

/-- One step of the outer `for i in range(n)` loop of `cluster_all_sources`:
skip an already-seen index, otherwise run the search from `i` and append the
resulting component.  Definitionally equal to the fold body of
`cluster_comps`. -/
def cstep (adj : List (List Nat)) (fuel : Nat)
    (st : (Nat → Bool) × List (List Nat)) (i : Nat) :
    (Nat → Bool) × List (List Nat) :=
  if st.1 i then st
  else ((bfs adj fuel (mark st.1 i) [i] [i]).1,
        st.2 ++ [(bfs adj fuel (mark st.1 i) [i] [i]).2])

/- ## Canonicalization and alignment -/

/-- The value of the dict comprehension `{r["src"]: r for r in cluster}`
at key `p`: the last record of that source wins. -/
def by_src_last (cluster : List Rec) (p : String) : Option Rec :=
  (cluster.filter (fun r => r.src = p)).getLast?

/-- `canonical_pair` of the source: the home/away labels of the first
priority source present in the cluster, else those of the first record. -/
def canonical_pair (cluster : List Rec) : String × String :=
  let pref := ["soccer", "mozzart", "merkur", "meridian", "betole", "balkanbet"]
  match pref.findSome? (fun p => by_src_last cluster p) with
  | some r => (r.home, r.away)
  | none => ((cluster.getD 0 default).home, (cluster.getD 0 default).away)

/-- `is_plausible_odd` of the source. -/
def is_plausible_odd (x : Option ℚ) : Bool :=
  match x with
  | none => false
  | some v => 101/100 ≤ v ∧ v ≤ 25

/-- `coherent_1x2_for_source` of the source: `(ok, S)` with `S` the
reciprocal sum of the 1-X-2 prices. -/
def coherent_1x2_for_source (rec : Rec) : Bool × Option ℚ :=
  match odGet rec.odds "1", odGet rec.odds "X", odGet rec.odds "2" with
  | some a, some b, some c =>
    if is_plausible_odd (some a) && is_plausible_odd (some b) && is_plausible_odd (some c) then
      let S := 1/a + 1/b + 1/c
      if 19/20 ≤ S ∧ S ≤ 19/10 then (true, some S) else (false, some S)
    else (false, none)
  | _, _, _ => (false, none)

/-- `filter_sources_for_1x2_best` of the source. -/
def filter_sources_for_1x2_best (by_src : List (String × Rec)) : List (String × Rec) :=
  by_src.filter (fun g => (coherent_1x2_for_source g.2).1)

/-- `_orientation_vs_canon` of the source. -/
def orientation_vs_canon (rec : Rec) (canon_home canon_away : String) : String :=
  let straight_al := al_enforced_equal rec.home canon_home && al_enforced_equal rec.away canon_away
  let swap_al := al_enforced_equal rec.home canon_away && al_enforced_equal rec.away canon_home
  if straight_al && !swap_al then "straight"
  else if swap_al && !straight_al then "swap"
  else
    let s_st := (side_score rec.home canon_home + side_score rec.away canon_away) / 2
    let s_sw := (side_score rec.home canon_away + side_score rec.away canon_home) / 2
    if s_sw ≤ s_st then "straight" else "swap"

/-- `_swap_1x2_if_needed` of the source: on `"swap"`, write the original
`2` price under `1` and the original `1` price under `2` (a copy of the
dict with both entries reassigned); anything else is returned unchanged. -/
def swap_1x2_if_needed (odds : List (String × Option ℚ)) (orientation : String) :
    List (String × Option ℚ) :=
  if orientation ≠ "swap" then odds
  else dSet (dSet odds "1" (odGet odds "2")) "2" (odGet odds "1")

/-- `_rec_completeness_score` of the source: the pair (coherent 1-X-2 flag,
number of non-`None` odds entries), compared lexicographically. -/
def rec_completeness_score (rec : Rec) : Nat × Nat :=
  ((if (coherent_1x2_for_source rec).1 then 1 else 0),
   (rec.odds.filter (fun kv => kv.2.isSome)).length)

/-- Strict lexicographic `>` on completeness scores. -/
def score_gt (x y : Nat × Nat) : Bool :=
  y.1 < x.1 ∨ (x.1 = y.1 ∧ y.2 < x.2)

/-- `sorted(items, key=_rec_completeness_score, reverse=True)[0]`: the
stable descending sort puts first the earliest record attaining the
maximal completeness score, which this fold computes directly. -/
def pick_best (h : Rec) (t : List Rec) : Rec :=
  t.foldl (fun best r => if score_gt (rec_completeness_score r) (rec_completeness_score best)
    then r else best) h

/-- The per-source grouping of `aligned_by_src` (`defaultdict(list)` in
cluster order). -/
def per_src (cluster : List Rec) : List (String × List Rec) :=
  cluster.foldl (fun gs r => add_to_groups gs r.src r) []

/-- The `chosen` dict of `aligned_by_src`: per source, the most complete
duplicate. -/
def chosen_by_src (cluster : List Rec) : List (String × Rec) :=
  (per_src cluster).map (fun g => (g.1,
    match g.2 with
    | [] => default
    | h :: t => pick_best h t))

/-- `aligned_by_src` of the source: each chosen record re-labelled with the
canonical pair, its 1-X-2 odds swapped when its orientation is reversed. -/
def aligned_by_src (cluster : List Rec) : List (String × Rec) :=
  let cp := canonical_pair cluster
  (chosen_by_src cluster).map (fun g =>
    let ori := orientation_vs_canon g.2 cp.1 cp.2
    let aligned_odds := swap_1x2_if_needed g.2.odds ori
    (g.1, { g.2 with home := cp.1, away := cp.2, odds := aligned_odds }))

/-- The per-record transformation applied by `aligned_by_src`: canonical
labels and, when needed, the 1-2 swap. -/
def alignRec (cl : List Rec) (r : Rec) : Rec :=
  { r with
    home := (canonical_pair cl).1,
    away := (canonical_pair cl).2,
    odds := swap_1x2_if_needed r.odds
      (orientation_vs_canon r (canonical_pair cl).1 (canonical_pair cl).2) }

/- ## Arbitrage detection -/

/-- `SRC_LABEL` of the source. -/
def SRC_LABEL : List (String × String) :=
  [("soccer", "Soccer"), ("merkur", "Merkur"), ("mozzart", "Mozzart"),
   ("betole", "Betole"), ("meridian", "Meridian"), ("balkanbet", "BalkanBet")]

/-- `SRC_LABEL.get(code, code)`. -/
def src_label (code : String) : String := (dGet? SRC_LABEL code).getD code

/-- `set(keys) == {"1", "X", "2"}`. -/
def keys_set_123 (keys : List String) : Bool :=
  keys.all (fun k => k = "1" || k = "X" || k = "2") &&
    "1" ∈ keys && "X" ∈ keys && "2" ∈ keys

/-- The sources scanned by `best_odds_for_market`: under `strict_1x2` with
the 1-X-2 key set, only the coherent ones. -/
def scan_src_for (by_src : List (String × Rec)) (keys : List String)
    (strict_1x2 : Bool) : List (String × Rec) :=
  if strict_1x2 && keys_set_123 keys then filter_sources_for_1x2_best by_src else by_src

/-- One key of the inner update of `best_odds_for_market`: replace the
running best at `k` when source `entry` quotes a plausible strictly greater
price. -/
def bom_key_update (entry : String × Rec) (best : List (String × (ℚ × String)))
    (k : String) : List (String × (ℚ × String)) :=
  match odGet entry.2.odds k with
  | none => best
  | some v =>
    if is_plausible_odd (some v) && ((dGet? best k).getD (0, "")).1 < v then
      dSet best k (v, src_label entry.1)
    else best

/-- The inner update of `best_odds_for_market` for one source: for every
requested key, replace the running best when this source quotes a plausible
strictly greater price. -/
def bom_update (keys : List String) (best : List (String × (ℚ × String)))
    (entry : String × Rec) : List (String × (ℚ × String)) :=
  keys.foldl (bom_key_update entry) best

/-- The effect of one source on the running best value of one key. -/
def bom_step (entry : String × Rec) (k : String) (cur : ℚ × String) : ℚ × String :=
  match odGet entry.2.odds k with
  | none => cur
  | some v =>
    if is_plausible_odd (some v) && cur.1 < v then (v, src_label entry.1) else cur

/-- The running best of one key over a source scan. -/
def best_for_key (scan : List (String × Rec)) (k : String) (init : ℚ × String) :
    ℚ × String :=
  scan.foldl (fun cur p => bom_step p k cur) init

/-- `best_odds_for_market` of the source: per requested key the maximum
plausible price with its source label, keys that never received a positive
price (or a source label) dropped. -/
def best_odds_for_market (by_src : List (String × Rec)) (keys : List String)
    (strict_1x2 : Bool) : List (String × (ℚ × String)) :=
  let scan := scan_src_for by_src keys strict_1x2
  let best0 := keys.foldl (fun b k => dSet b k ((0 : ℚ), "")) []
  let best := scan.foldl (bom_update keys) best0
  best.filter (fun kv => 0 < kv.2.1 && kv.2.2 ≠ "")

/-- The result dict of the surebet functions. -/
structure Surebet where
  S : ℚ
  profit_pct : ℚ
  bankroll : ℚ
  stakes : List (String × (ℚ × String × ℚ))
deriving DecidableEq, Repr

/-- `surebet_3way` of the source. -/
def surebet_3way (best : List (String × (ℚ × String))) : Option Surebet :=
  match dGet? best "1", dGet? best "X", dGet? best "2" with
  | some (a, la), some (b, lb), some (c, lc) =>
    let S := 1/a + 1/b + 1/c
    if 1 ≤ S then none
    else some
      { S := S, profit_pct := (1 - S) * 100, bankroll := 100,
        stakes := [("1", ((100 / a) / S, la, a)), ("X", ((100 / b) / S, lb, b)),
                   ("2", ((100 / c) / S, lc, c))] }
  | _, _, _ => none

/-- `surebet_2way` of the source. -/
def surebet_2way (best : List (String × (ℚ × String))) (under_key over_key : String) :
    Option Surebet :=
  match dGet? best under_key, dGet? best over_key with
  | some (a, la), some (b, lb) =>
    let S := 1/a + 1/b
    if 1 ≤ S then none
    else some
      { S := S, profit_pct := (1 - S) * 100, bankroll := 100,
        stakes := [(under_key, ((100 / a) / S, la, a)),
                   (over_key, ((100 / b) / S, lb, b))] }
  | _, _ => none

/- ## Sample records used by concrete instances -/

/-- A record of the `soccer` source quoting `Al Ahly vs Zamalek`. -/
def rec_ahly : Rec :=
  { src := "soccer", time := "20:00", day := "", date := "", league := "",
    home := "Al Ahly", away := "Zamalek", match_id := "", odds := [] }

/-- A record of the `merkur` source quoting `Al Ittihad vs Zamalek`. -/
def rec_itti : Rec :=
  { src := "merkur", time := "20:00", day := "", date := "", league := "",
    home := "Al Ittihad", away := "Zamalek", match_id := "", odds := [] }

/-- A record with kickoff `20:00` and unambiguous team names. -/
def rec_t2000 : Rec :=
  { src := "soccer", time := "20:00", day := "", date := "", league := "",
    home := "aab", away := "ccd", match_id := "",
    odds := [("1", some 2), ("X", some 3), ("2", some 4)] }

/-- The same fixture as `rec_t2000` but listed at `20:25`. -/
def rec_t2025 : Rec := { rec_t2000 with src := "merkur", time := "20:25" }

/-- The same fixture as `rec_t2000` but listed at `20:09`. -/
def rec_t2009 : Rec := { rec_t2000 with time := "20:09" }

/-- The same fixture as `rec_t2000` but listed at `20:11` by another
source. -/
def rec_t2011 : Rec := { rec_t2000 with src := "merkur", time := "20:11" }

/-- A record whose league text `"Liga"` is non-empty but consists of stop
words only. -/
def rec_liga : Rec := { rec_t2000 with league := "Liga" }

/-- A record of the same fixture carrying league text `"Bundesliga"`. -/
def rec_bundes : Rec := { rec_t2000 with src := "merkur", league := "Bundesliga" }

/-- A record of the `merkur` source listing the same fixture as
`rec_t2000` with home and away exchanged. -/
def rec_swap : Rec :=
  { src := "merkur", time := "20:00", day := "", date := "", league := "",
    home := "ccd", away := "aab", match_id := "",
    odds := [("1", some 2), ("X", some 3), ("2", some 4)] }

/-- A record of the same fixture carrying league text `"Ekstraklasa"`. -/
def rec_ekstr : Rec := { rec_t2000 with src := "betole", league := "Ekstraklasa" }

/-- A record quoting only the implausible price `1=100` (above the 25.0
plausibility cap). -/
def rec_hi : Rec := { rec_t2000 with odds := [("1", some 100)] }

/-- A record quoting `1=1.50, X=1.55, 2=1.60`: individually plausible
prices whose reciprocal sum is about 1.937. -/
def rec_incoherent : Rec :=
  { rec_t2000 with
    odds := [("1", some (3/2)), ("X", some (31/20)), ("2", some (8/5))] }

/- ## Helper lemmas -/

/-- Invariance of a predicate under a left fold. -/
theorem fold_inv {α β : Type} (P : β → Prop) (f : β → α → β) :
    ∀ (l : List α) (init : β), P init → (∀ b a, a ∈ l → P b → P (f b a)) →
      P (l.foldl f init)
  | [], init, h0, _ => h0
  | a :: l, init, h0, hstep =>
    fold_inv P f l (f init a) (hstep init a (by simp) h0)
      (fun b x hx hb => hstep b x (by simp [hx]) hb)

/-- `add_to_groups` preserves a keyed membership property. -/
theorem add_to_groups_forall {κ α : Type} [DecidableEq κ] (P : κ → α → Prop) :
    ∀ (gs : List (κ × List α)) (k : κ) (x : α),
      (∀ g ∈ gs, ∀ y ∈ g.2, P g.1 y) → P k x →
      ∀ g ∈ add_to_groups gs k x, ∀ y ∈ g.2, P g.1 y := by
  intro gs
  induction gs with
  | nil =>
    intro k x _ hx g hg y hy
    simp only [add_to_groups, List.mem_singleton] at hg
    subst hg
    simp only [List.mem_singleton] at hy
    subst hy
    exact hx
  | cons g0 rest ih =>
    intro k x hall hx g hg y hy
    simp only [add_to_groups] at hg
    by_cases hk : g0.1 = k
    · rw [if_pos hk] at hg
      rcases List.mem_cons.1 hg with h | h
      · subst h
        rcases List.mem_append.1 hy with h' | h'
        · exact hall g0 (by simp) y h'
        · simp only [List.mem_singleton] at h'
          subst h'
          exact hk ▸ hx
      · exact hall g (by simp [h]) y hy
    · rw [if_neg hk] at hg
      rcases List.mem_cons.1 hg with h | h
      · subst h
        exact hall g0 (by simp) y hy
      · exact ih k x (fun g' hg' => hall g' (by simp [hg'])) hx g h y hy

/-- Every bucket entry indexes a record of that bucket key. -/
theorem bucketsOf_spec (records : List Rec) :
    ∀ g ∈ bucketsOf records, ∀ i ∈ g.2,
      i < records.length ∧ bucket_key (records.getD i default).time = g.1 := by
  unfold bucketsOf
  refine fold_inv (fun (bs : List (Option Nat × List Nat)) => ∀ g ∈ bs, ∀ i ∈ g.2,
    i < records.length ∧ bucket_key (records.getD i default).time = g.1) _ _ _ (by simp) ?_
  intro bs i hi hbs
  exact add_to_groups_forall (fun k j => j < records.length ∧
    bucket_key (records.getD j default).time = k) bs _ i hbs ⟨List.mem_range.1 hi, rfl⟩

/-- Both components of a pair produced by `pairs_of` are list members. -/
theorem pairs_of_mem {α : Type} :
    ∀ (l : List α) (p : α × α), p ∈ pairs_of l → p.1 ∈ l ∧ p.2 ∈ l := by
  intro l
  induction l with
  | nil =>
    intro p hp
    simp [pairs_of] at hp
  | cons x xs ih =>
    intro p hp
    simp only [pairs_of, List.mem_append, List.mem_map] at hp
    rcases hp with ⟨y, hy, hxy⟩ | h
    · subst hxy
      exact ⟨by simp, by simp [hy]⟩
    · exact ⟨by simp [(ih p h).1], by simp [(ih p h).2]⟩

/-- Membership after `add_edge`: either an old neighbour, or the added
endpoint at the updated vertex. -/
theorem mem_add_edge (adj : List (List Nat)) (u v w x : Nat)
    (h : x ∈ (add_edge adj u v).getD w []) :
    x ∈ adj.getD w [] ∨ (x = v ∧ w = u) := by
  unfold add_edge at h
  by_cases hw : w = u
  · subst hw
    by_cases hu : w < adj.length
    · have hset : (adj.set w (adj.getD w [] ++ [v])).getD w [] = adj.getD w [] ++ [v] := by
        rw [List.getD_eq_getElem?_getD, List.getElem?_set_self',
          List.getElem?_eq_getElem hu]
        rfl
      rw [hset] at h
      rcases List.mem_append.1 h with h' | h'
      · exact Or.inl h'
      · simp only [List.mem_singleton] at h'
        exact Or.inr ⟨h', rfl⟩
    · rw [List.set_eq_of_length_le (by omega)] at h
      exact Or.inl h
  · rw [List.getD_eq_getElem?_getD, List.getElem?_set_ne (fun he => hw he.symm),
      ← List.getD_eq_getElem?_getD] at h
    exact Or.inl h

/-- Every adjacency entry built by `cluster_all_sources` joins two valid
indices of the same time bucket. -/
theorem buildAdj_spec (records : List Rec) :
    ∀ u v, v ∈ (buildAdj records).getD u [] →
      u < records.length ∧ v < records.length ∧
      bucket_key (records.getD u default).time =
        bucket_key (records.getD v default).time := by
  unfold buildAdj
  refine fold_inv (fun (adj : List (List Nat)) => ∀ u v, v ∈ adj.getD u [] →
    u < records.length ∧ v < records.length ∧
    bucket_key (records.getD u default).time =
      bucket_key (records.getD v default).time) _ _ _ ?_ ?_
  · intro u v hv
    rw [List.getD_eq_getElem?_getD, List.getElem?_replicate] at hv
    revert hv
    split <;> simp
  · intro adj g hg hadj
    refine fold_inv (fun (adj : List (List Nat)) => ∀ u v, v ∈ adj.getD u [] →
      u < records.length ∧ v < records.length ∧
      bucket_key (records.getD u default).time =
        bucket_key (records.getD v default).time) _ _ _ hadj ?_
    intro adj' uv huv hadj' u v hv
    split at hv
    · rcases mem_add_edge _ _ _ _ _ hv with hv' | ⟨hx, hw⟩
      · rcases mem_add_edge _ _ _ _ _ hv' with hv'' | ⟨hx, hw⟩
        · exact hadj' u v hv''
        · subst hx hw
          have h1 := (bucketsOf_spec records g hg) uv.1 (pairs_of_mem _ _ huv).1
          have h2 := (bucketsOf_spec records g hg) uv.2 (pairs_of_mem _ _ huv).2
          exact ⟨h1.1, h2.1, h1.2.trans h2.2.symm⟩
      · subst hx hw
        have h1 := (bucketsOf_spec records g hg) uv.1 (pairs_of_mem _ _ huv).1
        have h2 := (bucketsOf_spec records g hg) uv.2 (pairs_of_mem _ _ huv).2
        exact ⟨h2.1, h1.1, h2.2.trans h1.2.symm⟩
    · exact hadj' u v hv


/- ## Concrete evaluation helpers -/

/-- Evaluate `fuzzy` from a computed matched total. -/
theorem fuzzy_eval (a b : String) (m : Nat)
    (hm : matched_total a.toList b.toList (a.toList.length + 1) 0
      a.toList.length 0 b.toList.length = m)
    (hl : ¬ (a.toList.length + b.toList.length = 0)) :
    fuzzy a b = 2 * (m : ℚ) / ((a.toList.length : ℚ) + (b.toList.length : ℚ)) := by
  unfold fuzzy
  rw [if_neg hl, hm]

/-- Evaluate `token_jaccard` from computed cardinalities. -/
theorem token_jaccard_eval (a b : Finset String) (i u : Nat)
    (h1 : ¬ (a = ∅ ∨ b = ∅)) (hi : (a ∩ b).card = i) (hu : (a ∪ b).card = u)
    (hu0 : ¬ (a ∪ b).card = 0) :
    token_jaccard a b = (i : ℚ) / (u : ℚ) := by
  unfold token_jaccard
  rw [if_neg h1, if_neg hu0, hi, hu]

/-- Evaluate `token_dice` from computed cardinalities. -/
theorem token_dice_eval (a b : Finset String) (i ca cb : Nat)
    (h1 : ¬ (a = ∅ ∨ b = ∅)) (hi : (a ∩ b).card = i) (hca : a.card = ca)
    (hcb : b.card = cb) (h0 : ¬ (a.card + b.card = 0)) :
    token_dice a b = (2 * i : ℚ) / ((ca : ℚ) + (cb : ℚ)) := by
  unfold token_dice
  rw [if_neg h1, if_neg h0, hi, hca, hcb]



/-- `fuzzy` on `abcb` / `bcab` (matched total 2 of 8). -/
theorem fz_abcb_bcab : fuzzy "abcb" "bcab" = 1/2 := by
  rw [fuzzy_eval "abcb" "bcab" 2 (by decide) (by decide)]
  norm_num

/-- `fuzzy` on `bcab` / `abcb` (matched total 3 of 8): the matcher is
order-sensitive. -/
theorem fz_bcab_abcb : fuzzy "bcab" "abcb" = 3/4 := by
  rw [fuzzy_eval "bcab" "abcb" 3 (by decide) (by decide)]
  norm_num

/-- `fuzzy` of `aab` with itself. -/
theorem fz_aab_aab : fuzzy "aab" "aab" = 1 := by
  rw [fuzzy_eval "aab" "aab" 3 (by decide) (by decide)]
  norm_num

/-- `fuzzy` of `ccd` with itself. -/
theorem fz_ccd_ccd : fuzzy "ccd" "ccd" = 1 := by
  rw [fuzzy_eval "ccd" "ccd" 3 (by decide) (by decide)]
  norm_num

/-- `fuzzy` of `aab` against `ccd`. -/
theorem fz_aab_ccd : fuzzy "aab" "ccd" = 0 := by
  rw [fuzzy_eval "aab" "ccd" 0 (by decide) (by decide)]
  norm_num

/-- `fuzzy` of `ccd` against `aab`. -/
theorem fz_ccd_aab : fuzzy "ccd" "aab" = 0 := by
  rw [fuzzy_eval "ccd" "aab" 0 (by decide) (by decide)]
  norm_num

/-- `team_char_score` on `abcb` / `bcab`. -/
theorem tcs_abcb_bcab : team_char_score "abcb" "bcab" = 1/4 := by
  simp only [team_char_score,
    show normalize_team "abcb" = "abcb" from by decide,
    show normalize_team "bcab" = "bcab" from by decide,
    show team_signature "abcb" = "abcb" from by decide,
    show team_signature "bcab" = "bcab" from by decide, fz_abcb_bcab]
  rw [if_pos (show (ngrams "abcb" 3).Nonempty ∧ (ngrams "bcab" 3).Nonempty from by decide),
    if_neg (show ¬ pref_or_contains "abcb" "bcab" = true from by decide),
    show (ngrams "abcb" 3 ∩ ngrams "bcab" 3).card = 0 from by decide,
    show (ngrams "abcb" 3 ∪ ngrams "bcab" 3).card = 4 from by decide]
  norm_num

/-- `team_char_score` on `bcab` / `abcb`. -/
theorem tcs_bcab_abcb : team_char_score "bcab" "abcb" = 3/8 := by
  simp only [team_char_score,
    show normalize_team "abcb" = "abcb" from by decide,
    show normalize_team "bcab" = "bcab" from by decide,
    show team_signature "abcb" = "abcb" from by decide,
    show team_signature "bcab" = "bcab" from by decide, fz_bcab_abcb]
  rw [if_pos (show (ngrams "bcab" 3).Nonempty ∧ (ngrams "abcb" 3).Nonempty from by decide),
    if_neg (show ¬ pref_or_contains "bcab" "abcb" = true from by decide),
    show (ngrams "bcab" 3 ∩ ngrams "abcb" 3).card = 0 from by decide,
    show (ngrams "bcab" 3 ∪ ngrams "abcb" 3).card = 4 from by decide]
  norm_num

/-- `team_char_score` of `aab` with itself. -/
theorem tcs_aab_aab : team_char_score "aab" "aab" = 1 := by
  simp only [team_char_score,
    show normalize_team "aab" = "aab" from by decide,
    show team_signature "aab" = "aab" from by decide, fz_aab_aab]
  rw [if_pos (show (ngrams "aab" 3).Nonempty ∧ (ngrams "aab" 3).Nonempty from by decide),
    if_pos (show pref_or_contains "aab" "aab" = true from by decide),
    show (ngrams "aab" 3 ∩ ngrams "aab" 3).card = 1 from by decide,
    show (ngrams "aab" 3 ∪ ngrams "aab" 3).card = 1 from by decide]
  norm_num

/-- `team_char_score` of `ccd` with itself. -/
theorem tcs_ccd_ccd : team_char_score "ccd" "ccd" = 1 := by
  simp only [team_char_score,
    show normalize_team "ccd" = "ccd" from by decide,
    show team_signature "ccd" = "ccd" from by decide, fz_ccd_ccd]
  rw [if_pos (show (ngrams "ccd" 3).Nonempty ∧ (ngrams "ccd" 3).Nonempty from by decide),
    if_pos (show pref_or_contains "ccd" "ccd" = true from by decide),
    show (ngrams "ccd" 3 ∩ ngrams "ccd" 3).card = 1 from by decide,
    show (ngrams "ccd" 3 ∪ ngrams "ccd" 3).card = 1 from by decide]
  norm_num

/-- `team_char_score` on `aab` / `ccd`. -/
theorem tcs_aab_ccd : team_char_score "aab" "ccd" = 0 := by
  simp only [team_char_score,
    show normalize_team "aab" = "aab" from by decide,
    show normalize_team "ccd" = "ccd" from by decide,
    show team_signature "aab" = "aab" from by decide,
    show team_signature "ccd" = "ccd" from by decide, fz_aab_ccd]
  rw [if_pos (show (ngrams "aab" 3).Nonempty ∧ (ngrams "ccd" 3).Nonempty from by decide),
    if_neg (show ¬ pref_or_contains "aab" "ccd" = true from by decide),
    show (ngrams "aab" 3 ∩ ngrams "ccd" 3).card = 0 from by decide,
    show (ngrams "aab" 3 ∪ ngrams "ccd" 3).card = 2 from by decide]
  norm_num

/-- `team_char_score` on `ccd` / `aab`. -/
theorem tcs_ccd_aab : team_char_score "ccd" "aab" = 0 := by
  simp only [team_char_score,
    show normalize_team "aab" = "aab" from by decide,
    show normalize_team "ccd" = "ccd" from by decide,
    show team_signature "aab" = "aab" from by decide,
    show team_signature "ccd" = "ccd" from by decide, fz_ccd_aab]
  rw [if_pos (show (ngrams "ccd" 3).Nonempty ∧ (ngrams "aab" 3).Nonempty from by decide),
    if_neg (show ¬ pref_or_contains "ccd" "aab" = true from by decide),
    show (ngrams "ccd" 3 ∩ ngrams "aab" 3).card = 0 from by decide,
    show (ngrams "ccd" 3 ∪ ngrams "aab" 3).card = 2 from by decide]
  norm_num

/-- `_side_score` on `abcb` / `bcab`. -/
theorem ss_abcb_bcab : side_score "abcb" "bcab" = 3/20 := by
  simp only [side_score, tcs_abcb_bcab]
  rw [token_jaccard_eval (team_tokens "abcb") (team_tokens "bcab") 0 2
      (by decide) (by decide) (by decide) (by decide),
    token_dice_eval (team_tokens "abcb") (team_tokens "bcab") 0 1 1
      (by decide) (by decide) (by decide) (by decide) (by decide),
    if_neg (show ¬ (is_token_subset (team_tokens "abcb") (team_tokens "bcab") ||
      is_token_subset (team_tokens "bcab") (team_tokens "abcb")) = true from by decide),
    if_neg (show ¬ pref_or_contains "abcb" "bcab" = true from by decide),
    if_neg (show ¬ ((team_tokens "abcb").Nonempty ∧ (team_tokens "bcab").Nonempty ∧
      ((team_tokens "abcb") ∩ (team_tokens "bcab")).Nonempty) from by decide)]
  norm_num [min_def, max_def]

/-- `_side_score` on `bcab` / `abcb`: a different value, refuting
symmetry. -/
theorem ss_bcab_abcb : side_score "bcab" "abcb" = 9/40 := by
  simp only [side_score, tcs_bcab_abcb]
  rw [token_jaccard_eval (team_tokens "bcab") (team_tokens "abcb") 0 2
      (by decide) (by decide) (by decide) (by decide),
    token_dice_eval (team_tokens "bcab") (team_tokens "abcb") 0 1 1
      (by decide) (by decide) (by decide) (by decide) (by decide),
    if_neg (show ¬ (is_token_subset (team_tokens "bcab") (team_tokens "abcb") ||
      is_token_subset (team_tokens "abcb") (team_tokens "bcab")) = true from by decide),
    if_neg (show ¬ pref_or_contains "bcab" "abcb" = true from by decide),
    if_neg (show ¬ ((team_tokens "bcab").Nonempty ∧ (team_tokens "abcb").Nonempty ∧
      ((team_tokens "bcab") ∩ (team_tokens "abcb")).Nonempty) from by decide)]
  norm_num [min_def, max_def]

/-- `_side_score` of `aab` with itself. -/
theorem ss_aab_aab : side_score "aab" "aab" = 1 := by
  simp only [side_score, tcs_aab_aab]
  rw [token_jaccard_eval (team_tokens "aab") (team_tokens "aab") 1 1
      (by decide) (by decide) (by decide) (by decide),
    token_dice_eval (team_tokens "aab") (team_tokens "aab") 1 1 1
      (by decide) (by decide) (by decide) (by decide) (by decide),
    if_pos (show (is_token_subset (team_tokens "aab") (team_tokens "aab") ||
      is_token_subset (team_tokens "aab") (team_tokens "aab")) = true from by decide),
    if_pos (show pref_or_contains "aab" "aab" = true from by decide),
    if_pos (show ((team_tokens "aab").Nonempty ∧ (team_tokens "aab").Nonempty ∧
      ((team_tokens "aab") ∩ (team_tokens "aab")).Nonempty) from by decide)]
  norm_num [min_def, max_def]

/-- `_side_score` of `ccd` with itself. -/
theorem ss_ccd_ccd : side_score "ccd" "ccd" = 1 := by
  simp only [side_score, tcs_ccd_ccd]
  rw [token_jaccard_eval (team_tokens "ccd") (team_tokens "ccd") 1 1
      (by decide) (by decide) (by decide) (by decide),
    token_dice_eval (team_tokens "ccd") (team_tokens "ccd") 1 1 1
      (by decide) (by decide) (by decide) (by decide) (by decide),
    if_pos (show (is_token_subset (team_tokens "ccd") (team_tokens "ccd") ||
      is_token_subset (team_tokens "ccd") (team_tokens "ccd")) = true from by decide),
    if_pos (show pref_or_contains "ccd" "ccd" = true from by decide),
    if_pos (show ((team_tokens "ccd").Nonempty ∧ (team_tokens "ccd").Nonempty ∧
      ((team_tokens "ccd") ∩ (team_tokens "ccd")).Nonempty) from by decide)]
  norm_num [min_def, max_def]

/-- `_side_score` on `aab` / `ccd`. -/
theorem ss_aab_ccd : side_score "aab" "ccd" = 0 := by
  simp only [side_score, tcs_aab_ccd]
  rw [token_jaccard_eval (team_tokens "aab") (team_tokens "ccd") 0 2
      (by decide) (by decide) (by decide) (by decide),
    token_dice_eval (team_tokens "aab") (team_tokens "ccd") 0 1 1
      (by decide) (by decide) (by decide) (by decide) (by decide),
    if_neg (show ¬ (is_token_subset (team_tokens "aab") (team_tokens "ccd") ||
      is_token_subset (team_tokens "ccd") (team_tokens "aab")) = true from by decide),
    if_neg (show ¬ pref_or_contains "aab" "ccd" = true from by decide),
    if_neg (show ¬ ((team_tokens "aab").Nonempty ∧ (team_tokens "ccd").Nonempty ∧
      ((team_tokens "aab") ∩ (team_tokens "ccd")).Nonempty) from by decide)]
  norm_num [min_def, max_def]

/-- `_side_score` on `ccd` / `aab`. -/
theorem ss_ccd_aab : side_score "ccd" "aab" = 0 := by
  simp only [side_score, tcs_ccd_aab]
  rw [token_jaccard_eval (team_tokens "ccd") (team_tokens "aab") 0 2
      (by decide) (by decide) (by decide) (by decide),
    token_dice_eval (team_tokens "ccd") (team_tokens "aab") 0 1 1
      (by decide) (by decide) (by decide) (by decide) (by decide),
    if_neg (show ¬ (is_token_subset (team_tokens "ccd") (team_tokens "aab") ||
      is_token_subset (team_tokens "aab") (team_tokens "ccd")) = true from by decide),
    if_neg (show ¬ pref_or_contains "ccd" "aab" = true from by decide),
    if_neg (show ¬ ((team_tokens "ccd").Nonempty ∧ (team_tokens "aab").Nonempty ∧
      ((team_tokens "ccd") ∩ (team_tokens "aab")).Nonempty) from by decide)]
  norm_num [min_def, max_def]


/- ## Bounds of the similarity components -/

/-- `runlen_go` never exceeds its fuel. -/
theorem runlen_go_le_fuel (a b : List Char) (ahi bhi : Nat) :
    ∀ fuel i j, runlen_go a b ahi bhi fuel i j ≤ fuel := by
  intro fuel
  induction fuel with
  | zero => intro i j; simp [runlen_go]
  | succ n ih =>
    intro i j
    simp only [runlen_go]
    split
    · exact Nat.succ_le_succ (ih _ _)
    · omega

/-- `runlen_go` is bounded by the remaining `b`-window. -/
theorem runlen_go_le_b (a b : List Char) (ahi bhi : Nat) :
    ∀ fuel i j, runlen_go a b ahi bhi fuel i j ≤ bhi - j := by
  intro fuel
  induction fuel with
  | zero => intro i j; simp [runlen_go]
  | succ n ih =>
    intro i j
    simp only [runlen_go]
    split
    · next h =>
      have := ih (i+1) (j+1)
      omega
    · omega

/-- A matching run fits in the `a`-window. -/
theorem runlen_le_a (a b : List Char) (ahi bhi i j : Nat) :
    runlen a b ahi bhi i j ≤ ahi - i :=
  runlen_go_le_fuel a b ahi bhi (ahi - i) i j

/-- A matching run fits in the `b`-window. -/
theorem runlen_le_b (a b : List Char) (ahi bhi i j : Nat) :
    runlen a b ahi bhi i j ≤ bhi - j :=
  runlen_go_le_b a b ahi bhi (ahi - i) i j

/-- The block found by `flm` lies inside the two windows. -/
theorem flm_spec (a b : List Char) (alo ahi blo bhi : Nat) :
    (flm a b alo ahi blo bhi).2.2 = 0 ∨
      (alo ≤ (flm a b alo ahi blo bhi).1 ∧ blo ≤ (flm a b alo ahi blo bhi).2.1 ∧
       (flm a b alo ahi blo bhi).1 + (flm a b alo ahi blo bhi).2.2 ≤ ahi ∧
       (flm a b alo ahi blo bhi).2.1 + (flm a b alo ahi blo bhi).2.2 ≤ bhi) := by
  unfold flm
  refine fold_inv (fun (best : Nat × Nat × Nat) => best.2.2 = 0 ∨
    (alo ≤ best.1 ∧ blo ≤ best.2.1 ∧ best.1 + best.2.2 ≤ ahi ∧
     best.2.1 + best.2.2 ≤ bhi)) _ _ _ (Or.inl rfl) ?_
  intro best i hi hbest
  refine fold_inv (fun (best : Nat × Nat × Nat) => best.2.2 = 0 ∨
    (alo ≤ best.1 ∧ blo ≤ best.2.1 ∧ best.1 + best.2.2 ≤ ahi ∧
     best.2.1 + best.2.2 ≤ bhi)) _ _ _ hbest ?_
  intro best' j hj hbest'
  dsimp only
  split
  · next hlt =>
    right
    rw [List.mem_range'_1] at hi hj
    have hra := runlen_le_a a b ahi bhi i j
    have hrb := runlen_le_b a b ahi bhi i j
    refine ⟨hi.1, hj.1, ?_, ?_⟩ <;> dsimp only <;> omega
  · exact hbest'

/-- The matched total fits in the `a`-window. -/
theorem matched_total_le_a (a b : List Char) :
    ∀ fuel alo ahi blo bhi, matched_total a b fuel alo ahi blo bhi ≤ ahi - alo := by
  intro fuel
  induction fuel with
  | zero => intro alo ahi blo bhi; simp [matched_total]
  | succ n ih =>
    intro alo ahi blo bhi
    simp only [matched_total]
    split
    · omega
    · next hk =>
      rcases flm_spec a b alo ahi blo bhi with h0 | ⟨h1, h2, h3, h4⟩
      · exact absurd h0 hk
      · have l1 := ih alo (flm a b alo ahi blo bhi).1 blo (flm a b alo ahi blo bhi).2.1
        have l2 := ih ((flm a b alo ahi blo bhi).1 + (flm a b alo ahi blo bhi).2.2) ahi
          ((flm a b alo ahi blo bhi).2.1 + (flm a b alo ahi blo bhi).2.2) bhi
        omega

/-- The matched total fits in the `b`-window. -/
theorem matched_total_le_b (a b : List Char) :
    ∀ fuel alo ahi blo bhi, matched_total a b fuel alo ahi blo bhi ≤ bhi - blo := by
  intro fuel
  induction fuel with
  | zero => intro alo ahi blo bhi; simp [matched_total]
  | succ n ih =>
    intro alo ahi blo bhi
    simp only [matched_total]
    split
    · omega
    · next hk =>
      rcases flm_spec a b alo ahi blo bhi with h0 | ⟨h1, h2, h3, h4⟩
      · exact absurd h0 hk
      · have l1 := ih alo (flm a b alo ahi blo bhi).1 blo (flm a b alo ahi blo bhi).2.1
        have l2 := ih ((flm a b alo ahi blo bhi).1 + (flm a b alo ahi blo bhi).2.2) ahi
          ((flm a b alo ahi blo bhi).2.1 + (flm a b alo ahi blo bhi).2.2) bhi
        omega

/-- `fuzzy` is non-negative. -/
theorem fuzzy_nonneg (a b : String) : 0 ≤ fuzzy a b := by
  simp only [fuzzy]
  split
  · norm_num
  · positivity

/-- `fuzzy` never exceeds 1. -/
theorem fuzzy_le_one (a b : String) : fuzzy a b ≤ 1 := by
  simp only [fuzzy]
  split
  · norm_num
  · next h =>
    have hM1 := matched_total_le_a a.toList b.toList (a.toList.length + 1) 0
      a.toList.length 0 b.toList.length
    have hM2 := matched_total_le_b a.toList b.toList (a.toList.length + 1) 0
      a.toList.length 0 b.toList.length
    have hpos : 0 < a.toList.length + b.toList.length := Nat.pos_of_ne_zero h
    rw [div_le_one (by exact_mod_cast hpos)]
    have h2M : 2 * matched_total a.toList b.toList (a.toList.length + 1) 0
        a.toList.length 0 b.toList.length ≤ a.toList.length + b.toList.length := by
      omega
    exact_mod_cast h2M

/-- `token_jaccard` lies in `[0, 1]`. -/
theorem token_jaccard_bounds (a b : Finset String) :
    0 ≤ token_jaccard a b ∧ token_jaccard a b ≤ 1 := by
  unfold token_jaccard
  split
  · norm_num
  · split
    · norm_num
    · next h h0 =>
      constructor
      · positivity
      · rw [div_le_one (by exact_mod_cast Nat.pos_of_ne_zero h0)]
        exact_mod_cast Finset.card_le_card (Finset.inter_subset_union)

/-- `token_dice` lies in `[0, 1]`. -/
theorem token_dice_bounds (a b : Finset String) :
    0 ≤ token_dice a b ∧ token_dice a b ≤ 1 := by
  unfold token_dice
  split
  · norm_num
  · split
    · norm_num
    · next h h0 =>
      constructor
      · positivity
      · rw [div_le_one (by exact_mod_cast Nat.pos_of_ne_zero h0)]
        have hca : (a ∩ b).card ≤ a.card := Finset.card_le_card Finset.inter_subset_left
        have hcb : (a ∩ b).card ≤ b.card := Finset.card_le_card Finset.inter_subset_right
        exact_mod_cast by omega


/-- The n-gram Jaccard component of `team_char_score` lies in `[0, 1]`. -/
theorem ng_ratio_bounds (A B : Finset String) :
    0 ≤ (if A.Nonempty ∧ B.Nonempty then ((A ∩ B).card : ℚ) / ((A ∪ B).card : ℚ) else 0) ∧
    (if A.Nonempty ∧ B.Nonempty then ((A ∩ B).card : ℚ) / ((A ∪ B).card : ℚ) else 0) ≤ 1 := by
  split
  · next h =>
    constructor
    · positivity
    · rw [div_le_one (by exact_mod_cast Finset.card_pos.2 (h.1.mono Finset.subset_union_left))]
      exact_mod_cast Finset.card_le_card Finset.inter_subset_union
  · norm_num

/-- `team_char_score` lies in `[0, 1]`. -/
theorem team_char_score_bounds (a_name b_name : String) :
    0 ≤ team_char_score a_name b_name ∧ team_char_score a_name b_name ≤ 1 := by
  obtain ⟨hng1, hng2⟩ := ng_ratio_bounds (ngrams (normalize_team a_name) 3)
    (ngrams (normalize_team b_name) 3)
  have hfz1 := fuzzy_nonneg (normalize_team a_name) (normalize_team b_name)
  have hfz2 := fuzzy_le_one (normalize_team a_name) (normalize_team b_name)
  have hsg1 := fuzzy_nonneg (team_signature (normalize_team a_name))
    (team_signature (normalize_team b_name))
  have hsg2 := fuzzy_le_one (team_signature (normalize_team a_name))
    (team_signature (normalize_team b_name))
  simp only [team_char_score]
  constructor
  · split
    · exact le_min (by norm_num) (by linarith)
    · linarith
  · split
    · exact min_le_left _ _
    · linarith


/-- Reading a key just written by `dSet`. -/
theorem dGet?_dSet_same {α : Type} :
    ∀ (l : List (String × α)) (k : String) (v : α), dGet? (dSet l k v) k = some v := by
  intro l
  induction l with
  | nil => intro k v; simp [dSet, dGet?]
  | cons p rest ih =>
    intro k v
    by_cases h : p.1 = k
    · simp [dSet, dGet?, h]
    · obtain ⟨k0, v0⟩ := p
      simp only [dSet, dGet?, if_neg h]
      exact ih k v

/-- Reading another key after `dSet`. -/
theorem dGet?_dSet_other {α : Type} :
    ∀ (l : List (String × α)) (k k' : String) (v : α), k' ≠ k →
      dGet? (dSet l k v) k' = dGet? l k' := by
  intro l
  induction l with
  | nil =>
    intro k k' v h
    have hne : ¬ k = k' := fun he => h he.symm
    simp [dSet, dGet?, hne]
  | cons p rest ih =>
    intro k k' v h
    obtain ⟨k0, v0⟩ := p
    by_cases h0 : k0 = k
    · subst h0
      have hne : ¬ k0 = k' := fun he => h he.symm
      simp [dSet, dGet?, hne]
    · simp only [dSet, dGet?, if_neg h0]
      by_cases h1 : k0 = k'
      · simp [dGet?, h1]
      · simp only [dGet?, if_neg h1]
        exact ih k k' v h

/-- Association-list lookup commutes with mapping the values. -/
theorem dGet?_map_pair {α β : Type} (f : α → β) :
    ∀ (l : List (String × α)) (k : String),
      dGet? (l.map (fun p => (p.1, f p.2))) k = (dGet? l k).map f := by
  intro l
  induction l with
  | nil => intro k; simp [dGet?]
  | cons p rest ih =>
    intro k
    by_cases h : p.1 = k
    · simp [dGet?, h]
    · simp only [List.map, dGet?, if_neg h]
      exact ih k

/-- `odGet` after the 1-2 swap: key `1` reads the original `2` price. -/
theorem odGet_swap_one (od : List (String × Option ℚ)) :
    odGet (dSet (dSet od "1" (odGet od "2")) "2" (odGet od "1")) "1" = odGet od "2" := by
  unfold odGet
  rw [dGet?_dSet_other _ _ _ _ (by decide), dGet?_dSet_same]
  rfl

/-- `odGet` after the 1-2 swap: key `2` reads the original `1` price. -/
theorem odGet_swap_two (od : List (String × Option ℚ)) :
    odGet (dSet (dSet od "1" (odGet od "2")) "2" (odGet od "1")) "2" = odGet od "1" := by
  unfold odGet
  rw [dGet?_dSet_same]
  rfl

/-- `odGet` after the 1-2 swap: every other key is unchanged. -/
theorem odGet_swap_other (od : List (String × Option ℚ)) (k : String)
    (h1 : k ≠ "1") (h2 : k ≠ "2") :
    odGet (dSet (dSet od "1" (odGet od "2")) "2" (odGet od "1")) k = odGet od k := by
  unfold odGet
  rw [dGet?_dSet_other _ _ _ _ h2, dGet?_dSet_other _ _ _ _ h1]


/- ## Lemmas on the best-odds fold -/

/-- Applying one source twice to a key's running best does nothing new. -/
theorem bom_step_idem (p : String × Rec) (k : String) (cur : ℚ × String) :
    bom_step p k (bom_step p k cur) = bom_step p k cur := by
  unfold bom_step
  cases h : odGet p.2.odds k with
  | none => rfl
  | some v =>
    dsimp only
    by_cases hc : (is_plausible_odd (some v) && decide (cur.1 < v)) = true
    · rw [if_pos hc]
      have hno : ¬ (is_plausible_odd (some v) && decide ((v, src_label p.1).1 < v)) = true := by
        simp [Bool.and_eq_true]
      rw [if_neg hno]
    · rw [if_neg hc, if_neg hc]

/-- The running best never decreases under a source step. -/
theorem bom_step_mono (p : String × Rec) (k : String) (cur : ℚ × String) :
    cur.1 ≤ (bom_step p k cur).1 := by
  unfold bom_step
  cases h : odGet p.2.odds k with
  | none => exact le_refl _
  | some v =>
    dsimp only
    by_cases hc : (is_plausible_odd (some v) && decide (cur.1 < v)) = true
    · rw [if_pos hc]
      simp only [Bool.and_eq_true, decide_eq_true_eq] at hc
      exact le_of_lt hc.2
    · rw [if_neg hc]

/-- `bom_key_update` at the written key reads back as `bom_step`. -/
theorem bom_key_update_lookup_same (p : String × Rec)
    (best : List (String × (ℚ × String))) (k : String) (cur : ℚ × String)
    (h : dGet? best k = some cur) :
    dGet? (bom_key_update p best k) k = some (bom_step p k cur) := by
  unfold bom_key_update bom_step
  cases hv : odGet p.2.odds k with
  | none => exact h
  | some v =>
    dsimp only
    rw [h]
    simp only [Option.getD_some]
    by_cases hc : (is_plausible_odd (some v) && decide (cur.1 < v)) = true
    · rw [if_pos hc, if_pos hc, dGet?_dSet_same]
    · rw [if_neg hc, if_neg hc, h]

/-- `bom_key_update` leaves other keys unchanged. -/
theorem bom_key_update_lookup_other (p : String × Rec)
    (best : List (String × (ℚ × String))) (k k' : String) (h : k' ≠ k) :
    dGet? (bom_key_update p best k) k' = dGet? best k' := by
  unfold bom_key_update
  cases hv : odGet p.2.odds k with
  | none => rfl
  | some v =>
    dsimp only
    split
    · exact dGet?_dSet_other _ _ _ _ h
    · rfl

/-- `bom_update` does not touch keys outside the requested list. -/
theorem bom_update_lookup_not_mem (p : String × Rec) :
    ∀ (keys : List String) (best : List (String × (ℚ × String))) (k : String),
      k ∉ keys → dGet? (bom_update keys best p) k = dGet? best k := by
  intro keys
  induction keys with
  | nil => intro best k _; rfl
  | cons k0 rest ih =>
    intro best k hk
    have h1 : k ≠ k0 := fun he => hk (by simp [he])
    have h2 : k ∉ rest := fun he => hk (by simp [he])
    unfold bom_update
    rw [List.foldl_cons]
    rw [show List.foldl (bom_key_update p) (bom_key_update p best k0) rest =
      bom_update rest (bom_key_update p best k0) p from rfl]
    rw [ih (bom_key_update p best k0) k h2]
    exact bom_key_update_lookup_other p best k0 k h1

/-- `bom_update` at a requested key applies exactly one `bom_step`. -/
theorem bom_update_lookup_mem (p : String × Rec) :
    ∀ (keys : List String) (best : List (String × (ℚ × String))) (k : String)
      (cur : ℚ × String), k ∈ keys → dGet? best k = some cur →
      dGet? (bom_update keys best p) k = some (bom_step p k cur) := by
  intro keys
  induction keys with
  | nil => intro best k cur hk; exact absurd hk (List.not_mem_nil k)
  | cons k0 rest ih =>
    intro best k cur hk hcur
    unfold bom_update
    rw [List.foldl_cons]
    rw [show List.foldl (bom_key_update p) (bom_key_update p best k0) rest =
      bom_update rest (bom_key_update p best k0) p from rfl]
    by_cases he : k = k0
    · subst he
      have h1 : dGet? (bom_key_update p best k) k = some (bom_step p k cur) :=
        bom_key_update_lookup_same p best k cur hcur
      by_cases hr : k ∈ rest
      · rw [ih (bom_key_update p best k) k (bom_step p k cur) hr h1]
        rw [bom_step_idem]
      · rw [bom_update_lookup_not_mem p rest _ k hr]
        exact h1
    · have hr : k ∈ rest := by
        rcases List.mem_cons.1 hk with h | h
        · exact absurd h he
        · exact h
      have h1 : dGet? (bom_key_update p best k0) k = some cur := by
        rw [bom_key_update_lookup_other p best k0 k he]
        exact hcur
      exact ih (bom_key_update p best k0) k cur hr h1

/-- The source scan applies `bom_step` per source to a requested key. -/
theorem scan_fold_lookup_mem (keys : List String) (k : String) (hk : k ∈ keys) :
    ∀ (scan : List (String × Rec)) (best : List (String × (ℚ × String)))
      (cur : ℚ × String), dGet? best k = some cur →
      dGet? (scan.foldl (bom_update keys) best) k = some (best_for_key scan k cur) := by
  intro scan
  induction scan with
  | nil => intro best cur h; exact h
  | cons p rest ih =>
    intro best cur h
    rw [List.foldl_cons]
    rw [ih (bom_update keys best p) (bom_step p k cur)
      (bom_update_lookup_mem p keys best k cur hk h)]
    rfl

/-- The source scan does not touch keys outside the requested list. -/
theorem scan_fold_lookup_not_mem (keys : List String) (k : String) (hk : k ∉ keys) :
    ∀ (scan : List (String × Rec)) (best : List (String × (ℚ × String))),
      dGet? (scan.foldl (bom_update keys) best) k = dGet? best k := by
  intro scan
  induction scan with
  | nil => intro best; rfl
  | cons p rest ih =>
    intro best
    rw [List.foldl_cons, ih (bom_update keys best p),
      bom_update_lookup_not_mem p keys best k hk]

/-- The initial best dict holds `(0, "")` exactly at the requested keys. -/
theorem best0_lookup :
    ∀ (keys : List String) (acc : List (String × (ℚ × String))) (k : String),
      dGet? (keys.foldl (fun b k' => dSet b k' ((0 : ℚ), "")) acc) k =
        (if k ∈ keys then some ((0 : ℚ), "") else dGet? acc k) := by
  intro keys
  induction keys with
  | nil => intro acc k; simp
  | cons k0 rest ih =>
    intro acc k
    rw [List.foldl_cons, ih (dSet acc k0 ((0 : ℚ), "")) k]
    by_cases hr : k ∈ rest
    · simp [hr]
    · by_cases he : k = k0
      · subst he
        simp [hr, dGet?_dSet_same]
      · simp [hr, he, dGet?_dSet_other acc k0 k ((0 : ℚ), "") he]


/-- Behaviour of the per-key running best over a scan: it is either the
initial value or a plausible quote of some scanned source; it never
decreases; it dominates every plausible quote; and it stays initial when no
scanned quote is plausible. -/
theorem best_for_key_spec (k : String) :
    ∀ (scan : List (String × Rec)) (init : ℚ × String),
      (best_for_key scan k init = init ∨
        ∃ p ∈ scan, odGet p.2.odds k = some (best_for_key scan k init).1 ∧
          is_plausible_odd (some (best_for_key scan k init).1) = true ∧
          (best_for_key scan k init).2 = src_label p.1) ∧
      init.1 ≤ (best_for_key scan k init).1 ∧
      (∀ p ∈ scan, ∀ w, odGet p.2.odds k = some w →
        is_plausible_odd (some w) = true → w ≤ (best_for_key scan k init).1) ∧
      ((∀ p ∈ scan, ∀ w, odGet p.2.odds k = some w →
        is_plausible_odd (some w) = false) → best_for_key scan k init = init) := by
  intro scan
  induction scan with
  | nil =>
    intro init
    exact ⟨Or.inl rfl, le_refl _, by simp, fun _ => rfl⟩
  | cons p rest ih =>
    intro init
    have hfold : best_for_key (p :: rest) k init =
      best_for_key rest k (bom_step p k init) := rfl
    obtain ⟨ex, mono, maxp, nopl⟩ := ih (bom_step p k init)
    refine ⟨?_, ?_, ?_, ?_⟩
    · rw [hfold]
      rcases ex with he | ⟨q, hq, h1, h2, h3⟩
      · rw [he]
        unfold bom_step
        cases ho : odGet p.2.odds k with
        | none => exact Or.inl rfl
        | some v =>
          dsimp only
          by_cases hc : (is_plausible_odd (some v) && decide (init.1 < v)) = true
          · rw [if_pos hc]
            refine Or.inr ⟨p, by simp, by rw [ho], ?_, rfl⟩
            simp only [Bool.and_eq_true] at hc
            exact hc.1
          · rw [if_neg hc]
            exact Or.inl rfl
      · exact Or.inr ⟨q, by simp [hq], h1, h2, h3⟩
    · rw [hfold]
      exact le_trans (bom_step_mono p k init) mono
    · intro q hq w hw hpl
      rw [hfold]
      rcases List.mem_cons.1 hq with he | he
      · subst he
        have hstep : w ≤ (bom_step q k init).1 := by
          unfold bom_step
          rw [hw]
          dsimp only
          by_cases hc : (is_plausible_odd (some w) && decide (init.1 < w)) = true
          · rw [if_pos hc]
          · rw [if_neg hc]
            rw [hpl] at hc
            simp only [Bool.true_and, decide_eq_true_eq] at hc
            exact le_of_not_lt hc
        exact le_trans hstep mono
      · exact maxp q he w hw hpl
    · intro hall
      rw [hfold]
      have hstep : bom_step p k init = init := by
        unfold bom_step
        cases ho : odGet p.2.odds k with
        | none => rfl
        | some v =>
          dsimp only
          rw [hall p (by simp) v ho]
          simp
      exact (nopl (fun q hq w hw => hall q (by simp [hq]) w hw)).trans hstep

/-- A key appearing after `dSet` was present before or is the written
key. -/
theorem mem_keys_dSet {α : Type} :
    ∀ (l : List (String × α)) (k x : String) (v : α),
      x ∈ (dSet l k v).map Prod.fst → x ∈ l.map Prod.fst ∨ x = k := by
  intro l
  induction l with
  | nil =>
    intro k x v h
    simp [dSet] at h
    exact Or.inr h
  | cons p rest ih =>
    intro k x v h
    obtain ⟨k0, v0⟩ := p
    by_cases h0 : k0 = k
    · subst h0
      simp only [dSet, if_pos rfl, List.map_cons] at h
      exact Or.inl h
    · simp only [dSet, if_neg h0, List.map_cons, List.mem_cons] at h
      rcases h with h | h
      · exact Or.inl (by simp [h])
      · rcases ih k x v h with h' | h'
        · exact Or.inl (by simp [h'])
        · exact Or.inr h'

/-- `dSet` keeps the key list duplicate-free. -/
theorem nodup_keys_dSet {α : Type} :
    ∀ (l : List (String × α)) (k : String) (v : α),
      (l.map Prod.fst).Nodup → ((dSet l k v).map Prod.fst).Nodup := by
  intro l
  induction l with
  | nil => intro k v _; simp [dSet]
  | cons p rest ih =>
    intro k v hnd
    obtain ⟨k0, v0⟩ := p
    simp only [List.map_cons, List.nodup_cons] at hnd
    by_cases h0 : k0 = k
    · subst h0
      have hd : dSet ((k0, v0) :: rest) k0 v = (k0, v) :: rest := by simp [dSet]
      rw [hd]
      simpa using hnd
    · simp only [dSet, if_neg h0, List.map_cons, List.nodup_cons]
      refine ⟨fun hc => ?_, ih k v hnd.2⟩
      rcases mem_keys_dSet rest k k0 v hc with h | h
      · exact hnd.1 h
      · exact h0 h

/-- `bom_key_update` keeps the key list duplicate-free. -/
theorem nodup_keys_bom_key_update (p : String × Rec)
    (best : List (String × (ℚ × String))) (k : String)
    (h : (best.map Prod.fst).Nodup) :
    ((bom_key_update p best k).map Prod.fst).Nodup := by
  unfold bom_key_update
  cases odGet p.2.odds k with
  | none => exact h
  | some v =>
    dsimp only
    split
    · exact nodup_keys_dSet best k _ h
    · exact h

/-- `bom_update` keeps the key list duplicate-free. -/
theorem nodup_keys_bom_update (p : String × Rec) :
    ∀ (keys : List String) (best : List (String × (ℚ × String))),
      (best.map Prod.fst).Nodup → ((bom_update keys best p).map Prod.fst).Nodup := by
  intro keys
  induction keys with
  | nil => intro best h; exact h
  | cons k0 rest ih =>
    intro best h
    exact ih (bom_key_update p best k0) (nodup_keys_bom_key_update p best k0 h)

/-- The whole source scan keeps the key list duplicate-free. -/
theorem nodup_keys_scan_fold (keys : List String) :
    ∀ (scan : List (String × Rec)) (best : List (String × (ℚ × String))),
      (best.map Prod.fst).Nodup →
      ((scan.foldl (bom_update keys) best).map Prod.fst).Nodup := by
  intro scan
  induction scan with
  | nil => intro best h; exact h
  | cons p rest ih =>
    intro best h
    exact ih (bom_update keys best p) (nodup_keys_bom_update p keys best h)

/-- The initial best dict has duplicate-free keys. -/
theorem nodup_keys_best0 :
    ∀ (keys : List String) (acc : List (String × (ℚ × String))),
      (acc.map Prod.fst).Nodup →
      ((keys.foldl (fun b k' => dSet b k' ((0 : ℚ), "")) acc).map Prod.fst).Nodup := by
  intro keys
  induction keys with
  | nil => intro acc h; exact h
  | cons k0 rest ih =>
    intro acc h
    exact ih (dSet acc k0 ((0 : ℚ), "")) (nodup_keys_dSet acc k0 _ h)

/-- A missing key reads as `none`. -/
theorem dGet?_eq_none_of_not_mem {α : Type} :
    ∀ (l : List (String × α)) (k : String), k ∉ l.map Prod.fst → dGet? l k = none := by
  intro l
  induction l with
  | nil => intro k _; rfl
  | cons p rest ih =>
    intro k h
    obtain ⟨k0, v0⟩ := p
    simp only [List.map_cons, List.mem_cons] at h
    push_neg at h
    simp only [dGet?]
    rw [if_neg (fun he => h.1 he.symm)]
    exact ih k h.2

/-- Lookup in a filtered dict with duplicate-free keys. -/
theorem dGet?_filter {α : Type} (pred : String × α → Bool) :
    ∀ (l : List (String × α)) (k : String), (l.map Prod.fst).Nodup →
      dGet? (l.filter pred) k =
        (match dGet? l k with
         | some x => if pred (k, x) then some x else none
         | none => none) := by
  intro l
  induction l with
  | nil => intro k _; rfl
  | cons p rest ih =>
    intro k hnd
    obtain ⟨k0, v0⟩ := p
    simp only [List.map_cons, List.nodup_cons] at hnd
    by_cases he : k0 = k
    · subst he
      have hr : dGet? ((k0, v0) :: rest) k0 = some v0 := by simp [dGet?]
      rw [hr]
      by_cases hp : pred (k0, v0) = true
      · rw [List.filter_cons_of_pos hp]
        have hr2 : dGet? ((k0, v0) :: List.filter pred rest) k0 = some v0 := by
          simp [dGet?]
        rw [hr2]
        dsimp only
        rw [if_pos hp]
      · rw [List.filter_cons_of_neg (by simpa using hp)]
        rw [ih k0 hnd.2, dGet?_eq_none_of_not_mem rest k0 hnd.1]
        dsimp only
        rw [if_neg hp]
    · have hr : dGet? ((k0, v0) :: rest) k = dGet? rest k := by simp [dGet?, he]
      rw [hr]
      by_cases hp : pred (k0, v0) = true
      · rw [List.filter_cons_of_pos hp]
        have hr2 : dGet? ((k0, v0) :: List.filter pred rest) k =
            dGet? (List.filter pred rest) k := by simp [dGet?, he]
        rw [hr2]
        exact ih k hnd.2
      · rw [List.filter_cons_of_neg (by simpa using hp)]
        exact ih k hnd.2

/-- `SRC_LABEL.get(code, code)` is non-empty for non-empty codes. -/
theorem src_label_ne (code : String) (h : code ≠ "") : src_label code ≠ "" := by
  simp only [src_label, SRC_LABEL, dGet?]
  split_ifs <;> simp_all


/-- Full specification of the best-odds computation over an explicit scan
list: a returned entry is the maximum plausible quote with its source
label; keys with no plausible quote, and unrequested keys, are omitted;
a plausible quote from a properly labelled source guarantees presence. -/
theorem best_odds_spec (scan : List (String × Rec)) (keys : List String) (k : String) :
    (∀ v lbl, dGet? ((scan.foldl (bom_update keys)
        (keys.foldl (fun b k' => dSet b k' ((0 : ℚ), "")) [])).filter
        (fun kv => 0 < kv.2.1 && kv.2.2 ≠ "")) k = some (v, lbl) →
      (∃ p ∈ scan, odGet p.2.odds k = some v ∧
        is_plausible_odd (some v) = true ∧ lbl = src_label p.1) ∧
      (∀ p ∈ scan, ∀ w, odGet p.2.odds k = some w →
        is_plausible_odd (some w) = true → w ≤ v)) ∧
    (k ∈ keys →
      (∀ p ∈ scan, ∀ w, odGet p.2.odds k = some w →
        is_plausible_odd (some w) = false) →
      dGet? ((scan.foldl (bom_update keys)
        (keys.foldl (fun b k' => dSet b k' ((0 : ℚ), "")) [])).filter
        (fun kv => 0 < kv.2.1 && kv.2.2 ≠ "")) k = none) ∧
    (k ∉ keys → dGet? ((scan.foldl (bom_update keys)
        (keys.foldl (fun b k' => dSet b k' ((0 : ℚ), "")) [])).filter
        (fun kv => 0 < kv.2.1 && kv.2.2 ≠ "")) k = none) ∧
    (k ∈ keys → (∀ p ∈ scan, p.1 ≠ "") →
      (∃ p ∈ scan, ∃ w, odGet p.2.odds k = some w ∧
        is_plausible_odd (some w) = true) →
      ∃ v lbl, dGet? ((scan.foldl (bom_update keys)
        (keys.foldl (fun b k' => dSet b k' ((0 : ℚ), "")) [])).filter
        (fun kv => 0 < kv.2.1 && kv.2.2 ≠ "")) k = some (v, lbl)) := by
  have hnd : (((scan.foldl (bom_update keys)
      (keys.foldl (fun b k' => dSet b k' ((0 : ℚ), "")) [])).map Prod.fst)).Nodup :=
    nodup_keys_scan_fold keys scan _ (nodup_keys_best0 keys [] (by simp))
  by_cases hk : k ∈ keys
  · have h0 : dGet? (keys.foldl (fun b k' => dSet b k' ((0 : ℚ), "")) []) k =
        some ((0 : ℚ), "") := by
      rw [best0_lookup keys [] k, if_pos hk]
    have hfold : dGet? (scan.foldl (bom_update keys)
        (keys.foldl (fun b k' => dSet b k' ((0 : ℚ), "")) [])) k =
        some (best_for_key scan k ((0 : ℚ), "")) :=
      scan_fold_lookup_mem keys k hk scan _ _ h0
    obtain ⟨ex, mono, maxp, nopl⟩ := best_for_key_spec k scan ((0 : ℚ), "")
    refine ⟨?_, ?_, fun hnk => absurd hk hnk, ?_⟩
    · intro v lbl hv
      rw [dGet?_filter _ _ _ hnd, hfold] at hv
      dsimp only at hv
      split at hv
      · next hpred =>
        have hbk : best_for_key scan k ((0 : ℚ), "") = (v, lbl) := Option.some_inj.1 hv
        rw [hbk] at hpred
        simp only [Bool.and_eq_true, decide_eq_true_eq] at hpred
        constructor
        · rcases ex with he | ⟨p, hp, h1, h2, h3⟩
          · rw [hbk] at he
            have : v = 0 := congrArg Prod.fst he
            exact absurd hpred.1 (by rw [this]; exact lt_irrefl 0)
          · rw [hbk] at h1 h2 h3
            exact ⟨p, hp, h1, h2, h3⟩
        · intro p hp w hw hpl
          have hle := maxp p hp w hw hpl
          rwa [hbk] at hle
      · exact absurd hv (by simp)
    · intro _ hall
      rw [dGet?_filter _ _ _ hnd, hfold]
      rw [nopl hall]
      dsimp only
      rw [if_neg (by simp)]
    · rintro _ hcodes ⟨p, hp, w, hw, hpl⟩
      have hw_le := maxp p hp w hw hpl
      have hwge : (101 : ℚ)/100 ≤ w := by
        simp only [is_plausible_odd, decide_eq_true_eq] at hpl
        exact hpl.1
      have hpos : 0 < (best_for_key scan k ((0 : ℚ), "")).1 :=
        lt_of_lt_of_le (by norm_num) (le_trans hwge hw_le)
      have hlbl : (best_for_key scan k ((0 : ℚ), "")).2 ≠ "" := by
        rcases ex with he | ⟨q, hq, h1, h2, h3⟩
        · rw [he] at hpos
          exact absurd hpos (lt_irrefl 0)
        · rw [h3]
          exact src_label_ne q.1 (hcodes q hq)
      refine ⟨(best_for_key scan k ((0 : ℚ), "")).1,
        (best_for_key scan k ((0 : ℚ), "")).2, ?_⟩
      rw [dGet?_filter _ _ _ hnd, hfold]
      dsimp only
      rw [if_pos (by simp only [Bool.and_eq_true, decide_eq_true_eq]; exact ⟨hpos, hlbl⟩)]
  · have h0 : dGet? (keys.foldl (fun b k' => dSet b k' ((0 : ℚ), "")) []) k = none := by
      rw [best0_lookup keys [] k, if_neg hk]
      rfl
    have hfold0 : dGet? (scan.foldl (bom_update keys)
        (keys.foldl (fun b k' => dSet b k' ((0 : ℚ), "")) [])) k = none := by
      rw [scan_fold_lookup_not_mem keys k hk scan]
      exact h0
    refine ⟨?_, fun hkk => absurd hkk hk, fun _ => ?_, fun hkk => absurd hkk hk⟩
    · intro v lbl hv
      rw [dGet?_filter _ _ _ hnd, hfold0] at hv
      exact absurd hv (by simp)
    · rw [dGet?_filter _ _ _ hnd, hfold0]


/- ## The breadth-first search produces a partition -/

/-- Effect of processing one dequeued vertex: a duplicate-free batch of
previously unseen neighbours is marked and appended to both the queue and
the component. -/
theorem bfs_fold_spec (l : List Nat) :
    ∀ (st : (Nat → Bool) × List Nat × List Nat),
      ∃ new : List Nat,
        (∀ j, (l.foldl (fun st v =>
            if st.1 v then st else (mark st.1 v, st.2.1 ++ [v], st.2.2 ++ [v])) st).1 j =
          (st.1 j || decide (j ∈ new))) ∧
        (l.foldl (fun st v =>
            if st.1 v then st else (mark st.1 v, st.2.1 ++ [v], st.2.2 ++ [v])) st).2.1 =
          st.2.1 ++ new ∧
        (l.foldl (fun st v =>
            if st.1 v then st else (mark st.1 v, st.2.1 ++ [v], st.2.2 ++ [v])) st).2.2 =
          st.2.2 ++ new ∧
        new.Nodup ∧ (∀ v ∈ new, st.1 v = false ∧ v ∈ l) := by
  induction l with
  | nil =>
    intro st
    exact ⟨[], by simp, by simp, by simp, List.nodup_nil, by simp⟩
  | cons v l ih =>
    intro st
    rw [List.foldl_cons]
    by_cases hv : st.1 v = true
    · rw [if_pos hv]
      obtain ⟨new, h1, h2, h3, h4, h5⟩ := ih st
      exact ⟨new, h1, h2, h3, h4, fun x hx => ⟨(h5 x hx).1, by simp [(h5 x hx).2]⟩⟩
    · rw [if_neg hv]
      obtain ⟨new, h1, h2, h3, h4, h5⟩ := ih (mark st.1 v, st.2.1 ++ [v], st.2.2 ++ [v])
      refine ⟨v :: new, ?_, ?_, ?_, ?_, ?_⟩
      · intro j
        rw [h1 j]
        by_cases hj : j = v
        · subst hj
          simp [mark]
        · simp [mark, hj]
      · rw [h2]
        simp
      · rw [h3]
        simp
      · refine List.nodup_cons.2 ⟨fun hc => ?_, h4⟩
        have := (h5 v hc).1
        simp [mark] at this
      · intro x hx
        rcases List.mem_cons.1 hx with he | he
        · subst he
          exact ⟨Bool.not_eq_true _ ▸ (by simpa using hv), by simp⟩
        · have h6 := h5 x he
          have h7 : st.1 x = false := by
            have := h6.1
            by_cases hxv : x = v
            · subst hxv
              simpa using hv
            · simpa [mark, hxv] using this
          exact ⟨h7, by simp [h6.2]⟩

/-- Effect of the whole search: the component grows by a duplicate-free
batch of previously unseen vertices, all drawn from adjacency lists, and
`seen` is extended by exactly that batch. -/
theorem bfs_spec (adj : List (List Nat)) :
    ∀ (fuel : Nat) (seen : Nat → Bool) (q comp : List Nat),
      ∃ new : List Nat,
        (bfs adj fuel seen q comp).2 = comp ++ new ∧
        (∀ j, (bfs adj fuel seen q comp).1 j = (seen j || decide (j ∈ new))) ∧
        new.Nodup ∧
        (∀ v ∈ new, seen v = false ∧ ∃ u, v ∈ adj.getD u []) := by
  intro fuel
  induction fuel with
  | zero =>
    intro seen q comp
    exact ⟨[], by simp [bfs], by simp [bfs], List.nodup_nil, by simp⟩
  | succ n ih =>
    intro seen q comp
    cases q with
    | nil => exact ⟨[], by simp [bfs], by simp [bfs], List.nodup_nil, by simp⟩
    | cons u q =>
      obtain ⟨new1, g1, g2, g3, g4, g5⟩ := bfs_fold_spec (adj.getD u []) (seen, q, comp)
      have g1a : ∀ j, (bfs_step adj (seen, q, comp) u).1 j =
          (seen j || decide (j ∈ new1)) := g1
      have g3a : (bfs_step adj (seen, q, comp) u).2.2 = comp ++ new1 := g3
      obtain ⟨new2, f1, f2, f3, f4⟩ := ih (bfs_step adj (seen, q, comp) u).1
        (bfs_step adj (seen, q, comp) u).2.1 (bfs_step adj (seen, q, comp) u).2.2
      have hb : bfs adj (n+1) seen (u :: q) comp =
          bfs adj n (bfs_step adj (seen, q, comp) u).1
            (bfs_step adj (seen, q, comp) u).2.1 (bfs_step adj (seen, q, comp) u).2.2 := rfl
      refine ⟨new1 ++ new2, ?_, ?_, ?_, ?_⟩
      · rw [hb, f1, g3a]
        simp
      · intro j
        rw [hb, f2 j, g1a j]
        by_cases hj1 : j ∈ new1 <;> by_cases hj2 : j ∈ new2 <;>
          simp [hj1, hj2]
      · refine List.Nodup.append g4 f3 ?_
        intro x hx1 hx2
        have hx3 := (f4 x hx2).1
        rw [g1a x] at hx3
        simp [hx1] at hx3
      · intro v hv
        rcases List.mem_append.1 hv with he | he
        · exact ⟨(g5 v he).1, u, (g5 v he).2⟩
        · have h6 := f4 v he
          have h7 := h6.1
          rw [g1a v] at h7
          simp only [Bool.or_eq_false_iff] at h7
          exact ⟨h7.1, h6.2⟩

/-- Invariant of the outer loop: the concatenation of the components found
so far is duplicate-free, agrees with the `seen` array, stays below `n`,
and absorbs every processed index while preserving earlier members. -/
theorem cstep_fold_spec (adj : List (List Nat)) (fuel n : Nat)
    (hadj : ∀ u v, v ∈ adj.getD u [] → v < n) :
    ∀ (l : List Nat) (st : (Nat → Bool) × List (List Nat)),
      (∀ i ∈ l, i < n) →
      (st.2.flatten).Nodup →
      (∀ j, st.1 j = true ↔ j ∈ st.2.flatten) →
      (∀ j ∈ st.2.flatten, j < n) →
      ((l.foldl (cstep adj fuel) st).2.flatten.Nodup ∧
       (∀ j, (l.foldl (cstep adj fuel) st).1 j = true ↔
          j ∈ (l.foldl (cstep adj fuel) st).2.flatten) ∧
       (∀ j ∈ (l.foldl (cstep adj fuel) st).2.flatten, j < n) ∧
       (∀ i ∈ l, i ∈ (l.foldl (cstep adj fuel) st).2.flatten) ∧
       (∀ j ∈ st.2.flatten, j ∈ (l.foldl (cstep adj fuel) st).2.flatten)) := by
  intro l
  induction l with
  | nil =>
    intro st _ h1 h2 h3
    exact ⟨h1, h2, h3, by simp, fun j hj => hj⟩
  | cons i l ih =>
    intro st hl hN hI hB
    rw [List.foldl_cons]
    by_cases hv : st.1 i = true
    · have hst : cstep adj fuel st i = st := by
        simp only [cstep, if_pos hv]
      rw [hst]
      obtain ⟨k1, k2, k3, k4, k5⟩ := ih st (fun x hx => hl x (by simp [hx])) hN hI hB
      refine ⟨k1, k2, k3, ?_, k5⟩
      intro x hx
      rcases List.mem_cons.1 hx with he | he
      · subst he
        exact k5 x ((hI x).1 hv)
      · exact k4 x he
    · obtain ⟨new, e1, e2, e3, e4⟩ := bfs_spec adj fuel (mark st.1 i) [i] [i]
      have hinew : i ∉ new := by
        intro hc
        have := (e4 i hc).1
        simp [mark] at this
      have hnews : ∀ v ∈ new, st.1 v = false := by
        intro v hvn
        have h5 := (e4 v hvn).1
        by_cases hvi : v = i
        · subst hvi
          simp [mark] at h5
        · simpa [mark, hvi] using h5
      have hnewb : ∀ v ∈ new, v < n := by
        intro v hvn
        obtain ⟨u, hu⟩ := (e4 v hvn).2
        exact hadj u v hu
      have hfl : (cstep adj fuel st i).2.flatten = st.2.flatten ++ (i :: new) := by
        have h9 : (cstep adj fuel st i).2 =
            st.2 ++ [(bfs adj fuel (mark st.1 i) [i] [i]).2] := by
          simp only [cstep, if_neg hv]
        rw [h9, List.flatten_append, e1]
        simp
      have hs1 : (cstep adj fuel st i).1 = (bfs adj fuel (mark st.1 i) [i] [i]).1 := by
        simp only [cstep, if_neg hv]
      have hN2 : (cstep adj fuel st i).2.flatten.Nodup := by
        rw [hfl]
        refine List.Nodup.append hN (List.nodup_cons.2 ⟨hinew, e3⟩) ?_
        intro x hx1 hx2
        have hx3 : st.1 x = true := (hI x).2 hx1
        rcases List.mem_cons.1 hx2 with he | he
        · subst he
          exact hv hx3
        · rw [hnews x he] at hx3
          exact Bool.false_ne_true hx3
      have hI2 : ∀ j, (cstep adj fuel st i).1 j = true ↔
          j ∈ (cstep adj fuel st i).2.flatten := by
        intro j
        rw [hs1, e2 j, hfl]
        by_cases hji : j = i
        · subst hji
          simp [mark]
        · simp [mark, hji, hI j]
      have hB2 : ∀ j ∈ (cstep adj fuel st i).2.flatten, j < n := by
        intro j hj
        rw [hfl] at hj
        rcases List.mem_append.1 hj with he | he
        · exact hB j he
        · rcases List.mem_cons.1 he with he2 | he2
          · subst he2
            exact hl j (by simp)
          · exact hnewb j he2
      obtain ⟨k1, k2, k3, k4, k5⟩ := ih (cstep adj fuel st i)
        (fun x hx => hl x (by simp [hx])) hN2 hI2 hB2
      refine ⟨k1, k2, k3, ?_, ?_⟩
      · intro x hx
        rcases List.mem_cons.1 hx with he | he
        · subst he
          refine k5 x ?_
          rw [hfl]
          simp
        · exact k4 x he
      · intro j hj
        refine k5 j ?_
        rw [hfl]
        exact List.mem_append_left _ hj

set_option maxRecDepth 4000 in
/-- The index components of `cluster_comps` concatenate to a permutation of
`range n`: every index appears in exactly one component. -/
theorem cluster_comps_flatten_perm (records : List Rec) :
    (cluster_comps records).flatten.Perm (List.range records.length) := by
  have hc : cluster_comps records =
      ((List.range records.length).foldl
        (cstep (buildAdj records) records.length) ((fun _ => false), [])).2 := rfl
  obtain ⟨k1, _, k3, k4, _⟩ := cstep_fold_spec (buildAdj records) records.length
    records.length (fun u v hv => (buildAdj_spec records u v hv).2.1)
    (List.range records.length) ((fun _ => false), [])
    (fun i hi => List.mem_range.1 hi)
    (by rw [List.flatten_nil]; exact List.nodup_nil)
    (by intro j; rw [List.flatten_nil]; simp)
    (by intro j hj; rw [List.flatten_nil] at hj; exact absurd hj (List.not_mem_nil j))
  rw [hc]
  refine (List.perm_ext_iff_of_nodup k1 (List.nodup_range _)).2 ?_
  intro a
  constructor
  · intro ha
    exact List.mem_range.2 (k3 a ha)
  · intro ha
    exact k4 a ha

/-- Flattening a mapped-map: lift a per-element map out of the flatten. -/
theorem flatten_map_map {α β : Type} (g : α → β) :
    ∀ l : List (List α), (l.map (fun c => c.map g)).flatten = l.flatten.map g := by
  intro l
  induction l with
  | nil => rfl
  | cons c l ih =>
    rw [List.map_cons, List.flatten_cons, List.flatten_cons, List.map_append, ih]

/-- Reading back a list through `getD` at all indices reproduces the list. -/
theorem map_getD_range {α : Type} [Inhabited α] :
    ∀ l : List α, (List.range l.length).map (fun k => l.getD k default) = l := by
  intro l
  induction l with
  | nil => rfl
  | cons x l ih =>
    rw [List.length_cons, List.range_succ_eq_map, List.map_cons, List.map_map]
    have h2 : ((fun k => (x :: l).getD k default) ∘ fun i => i + 1) =
        (fun k => l.getD k default) := rfl
    rw [h2, ih]
    simp

/- ## Claim theorems -/

/-- Claim C2: for best prices `a`, `b`, `c` for outcomes `1`, `X`, `2`
(and `a`, `b` for the two-outcome `0-2`/`3+` pair), the surebet functions
return a non-`none` result iff the reciprocal sum `S` is below 1; the
profit percentage is `(1 - S) * 100`, the stake on price `p` with bankroll
100 is `(100/p)/S`, the stakes sum to the bankroll, and every outcome pays
out the same `100/S`. -/
theorem C2_surebet_formulas (a b c : ℚ) (la lb lc : String)
    (ha : 0 < a) (hb : 0 < b) (hc : 0 < c) :
    (((surebet_3way [("1", (a, la)), ("X", (b, lb)), ("2", (c, lc))]).isSome ↔
        1/a + 1/b + 1/c < 1) ∧
      (1/a + 1/b + 1/c < 1 →
        surebet_3way [("1", (a, la)), ("X", (b, lb)), ("2", (c, lc))] = some
          { S := 1/a + 1/b + 1/c,
            profit_pct := (1 - (1/a + 1/b + 1/c)) * 100,
            bankroll := 100,
            stakes := [("1", ((100 / a) / (1/a + 1/b + 1/c), la, a)),
                       ("X", ((100 / b) / (1/a + 1/b + 1/c), lb, b)),
                       ("2", ((100 / c) / (1/a + 1/b + 1/c), lc, c))] } ∧
        (100 / a) / (1/a + 1/b + 1/c) + (100 / b) / (1/a + 1/b + 1/c) +
            (100 / c) / (1/a + 1/b + 1/c) = 100 ∧
        ((100 / a) / (1/a + 1/b + 1/c)) * a = 100 / (1/a + 1/b + 1/c) ∧
        ((100 / b) / (1/a + 1/b + 1/c)) * b = 100 / (1/a + 1/b + 1/c) ∧
        ((100 / c) / (1/a + 1/b + 1/c)) * c = 100 / (1/a + 1/b + 1/c))) ∧
    (((surebet_2way [("0-2", (a, la)), ("3+", (b, lb))] "0-2" "3+").isSome ↔
        1/a + 1/b < 1) ∧
      (1/a + 1/b < 1 →
        surebet_2way [("0-2", (a, la)), ("3+", (b, lb))] "0-2" "3+" = some
          { S := 1/a + 1/b,
            profit_pct := (1 - (1/a + 1/b)) * 100,
            bankroll := 100,
            stakes := [("0-2", ((100 / a) / (1/a + 1/b), la, a)),
                       ("3+", ((100 / b) / (1/a + 1/b), lb, b))] } ∧
        (100 / a) / (1/a + 1/b) + (100 / b) / (1/a + 1/b) = 100 ∧
        ((100 / a) / (1/a + 1/b)) * a = 100 / (1/a + 1/b) ∧
        ((100 / b) / (1/a + 1/b)) * b = 100 / (1/a + 1/b))) := by
  have ha' : a ≠ 0 := ne_of_gt ha
  have hb' : b ≠ 0 := ne_of_gt hb
  have hc' : c ≠ 0 := ne_of_gt hc
  have hS3 : (0 : ℚ) < 1/a + 1/b + 1/c := by positivity
  have hS2 : (0 : ℚ) < 1/a + 1/b := by positivity
  have hS3' : 1/a + 1/b + 1/c ≠ 0 := ne_of_gt hS3
  have hS2' : 1/a + 1/b ≠ 0 := ne_of_gt hS2
  refine ⟨⟨?_, fun hlt => ⟨?_, ?_, ?_, ?_, ?_⟩⟩, ⟨?_, fun hlt => ⟨?_, ?_, ?_, ?_⟩⟩⟩
  · simp only [surebet_3way, dGet?, String.reduceEq, reduceIte]
    norm_num
  · simp only [surebet_3way, dGet?, String.reduceEq, reduceIte]
    norm_num [not_le.mpr hlt]
    intro h
    simp only [one_div] at hlt
    linarith
  · field_simp
    ring
  · field_simp
    ring
  · field_simp
    ring
  · field_simp
    ring
  · simp only [surebet_2way, dGet?, String.reduceEq, reduceIte]
    norm_num
  · simp only [surebet_2way, dGet?, String.reduceEq, reduceIte]
    norm_num [not_le.mpr hlt]
    intro h
    simp only [one_div] at hlt
    linarith
  · field_simp
    ring
  · field_simp
    ring
  · field_simp
    ring

/-- Witness for C2 at the concrete best prices `3`, `4`, `5`
(`S = 47/60 < 1`). -/
theorem C2_surebet_formulas_witness :
    (surebet_3way [("1", ((3 : ℚ), "A")), ("X", ((4 : ℚ), "B")), ("2", ((5 : ℚ), "C"))]).isSome ∧
    (surebet_2way [("0-2", ((3 : ℚ), "A")), ("3+", ((4 : ℚ), "B"))] "0-2" "3+").isSome := by
  have h := C2_surebet_formulas 3 4 5 "A" "B" "C" (by norm_num) (by norm_num) (by norm_num)
  exact ⟨h.1.1.mpr (by norm_num), h.2.1.mpr (by norm_num)⟩


/-- When the parsed kickoff times are more than 20 minutes apart,
`_match_ok` rejects at its first gate. -/
theorem match_ok_far_times (a b : Rec) (m1 m2 : Nat)
    (h1 : time_to_minutes a.time = some m1) (h2 : time_to_minutes b.time = some m2)
    (h : 20 < Nat.dist m1 m2) : match_ok a b = false := by
  have hclose : times_close a.time b.time 20 = false := by
    unfold times_close
    rw [h1, h2]
    simp [Nat.not_le.2 h]
  unfold match_ok
  rw [hclose]
  simp

/-- Claim C4: a leg involving a standalone `al` token is eligible only on
exact normalized equality; `_match_ok` rejects outright when neither
orientation has both legs eligible; the pair `Al Ahly` / `Al Ittihad` is
never an acceptable leg. -/
theorem C4_al_guard (a b : Rec) (x y : String) :
    (has_al x || has_al y →
      (al_enforced_equal x y = true ↔ normalize_team x = normalize_team y)) ∧
    ((al_enforced_equal a.home b.home && al_enforced_equal a.away b.away) = false →
      (al_enforced_equal a.home b.away && al_enforced_equal a.away b.home) = false →
      match_ok a b = false) ∧
    al_enforced_equal "Al Ahly" "Al Ittihad" = false := by
  refine ⟨?_, ?_, by decide⟩
  · intro h
    unfold al_enforced_equal
    rw [if_pos h]
    simp
  · intro h1 h2
    simp only [match_ok, h1, h2]
    simp

/-- Witness for C4 at `Al Ahly` / `Al Ittihad` against `Zamalek`. -/
theorem C4_al_guard_witness :
    (al_enforced_equal "Al Ahly" "Al Ittihad" = true ↔
      normalize_team "Al Ahly" = normalize_team "Al Ittihad") ∧
    match_ok rec_ahly rec_itti = false := by
  constructor
  · exact (C4_al_guard default default "Al Ahly" "Al Ittihad").1 (by decide)
  · exact (C4_al_guard rec_ahly rec_itti "" "").2.1 (by decide) (by decide)

/-- Claim C6: `_match_ok` rejects pairs whose parsed kickoff times differ
by more than 20 minutes; within tolerance the decay factor is 1.00 up to 5
minutes, 0.97 up to 10 and 0.92 up to 20; `20:00` against `20:25` is never
accepted, while `20:00` against `20:08` passes the time gate with factor
0.97. -/
theorem C6_time_gating (a b : Rec) (m1 m2 : Nat) :
    (time_to_minutes a.time = some m1 → time_to_minutes b.time = some m2 →
      20 < Nat.dist m1 m2 → match_ok a b = false) ∧
    (time_to_minutes a.time = some m1 → time_to_minutes b.time = some m2 →
      time_factor a.time b.time =
        (if Nat.dist m1 m2 ≤ 5 then 1 else if Nat.dist m1 m2 ≤ 10 then 97/100
         else if Nat.dist m1 m2 ≤ 20 then 23/25 else 0)) ∧
    (a.time = "20:00" → b.time = "20:25" → match_ok a b = false) ∧
    (times_close "20:00" "20:08" 20 = true ∧ time_factor "20:00" "20:08" = 97/100) := by
  refine ⟨fun h1 h2 h3 => match_ok_far_times a b m1 m2 h1 h2 h3,
    fun h1 h2 => ?_, fun ha hb => ?_, by decide, ?_⟩
  · unfold time_factor
    rw [h1, h2]
  · exact match_ok_far_times a b 1200 1225 (by rw [ha]; decide) (by rw [hb]; decide)
      (by decide)
  · have e1 : time_to_minutes "20:00" = some 1200 := by decide
    have e2 : time_to_minutes "20:08" = some 1208 := by decide
    unfold time_factor
    rw [e1, e2]
    norm_num [Nat.dist]

/-- Witness for C6 at kickoff times `20:00`, `20:25` and `20:08`. -/
theorem C6_time_gating_witness :
    match_ok rec_t2000 rec_t2025 = false ∧
    time_factor rec_t2000.time rec_t2025.time = 0 ∧
    times_close "20:00" "20:08" 20 = true ∧ time_factor "20:00" "20:08" = 97/100 := by
  have h := C6_time_gating rec_t2000 rec_t2025 1200 1225
  refine ⟨h.2.2.1 rfl rfl, ?_, h.2.2.2⟩
  rw [h.2.1 (by decide) (by decide)]
  norm_num [Nat.dist]

/-- Claim C10: `cluster_all_sources` only compares records inside one
10-minute bucket (`minutes / 10`, unparseable times in a separate `none`
bucket), so records of different buckets never receive a direct edge. -/
theorem C10_bucketed_comparison (records : List Rec) (i j : Nat)
    (h : bucket_key (records.getD i default).time ≠
      bucket_key (records.getD j default).time) :
    j ∉ (buildAdj records).getD i [] ∧
    (∀ t m, time_to_minutes t = some m → bucket_key t = some (m / 10)) ∧
    (∀ t, time_to_minutes t = none → bucket_key t = none) := by
  refine ⟨fun hmem => h ((buildAdj_spec records i j hmem).2.2), ?_, ?_⟩
  · intro t m ht
    simp [bucket_key, ht]
  · intro t ht
    simp [bucket_key, ht]

/-- Witness for C10: `20:09` and `20:11` differ by only 2 minutes but sit
in different buckets, so no direct edge is built between them. -/
theorem C10_bucketed_comparison_witness :
    bucket_key rec_t2009.time ≠ bucket_key rec_t2011.time ∧
    Nat.dist 1209 1211 ≤ 20 ∧
    (1 : Nat) ∉ (buildAdj [rec_t2009, rec_t2011]).getD 0 [] := by
  refine ⟨by decide, by decide, ?_⟩
  exact (C10_bucketed_comparison [rec_t2009, rec_t2011] 0 1 (by decide)).1

/-- Claim C7 counterexample: `_side_score` is not symmetric — on the pair
`abcb` / `bcab` the two orders give 3/20 and 9/40, because the underlying
`SequenceMatcher` ratio is order-sensitive. -/
theorem C7_side_score_asymmetric :
    ¬ (side_score "abcb" "bcab" = side_score "bcab" "abcb") := by
  rw [ss_abcb_bcab, ss_bcab_abcb]
  norm_num

/-- Claim C7, amended: `_side_score` always lies in the interval `[0, 1]`
(the symmetry half of the original claim fails, see the counterexample). -/
theorem C7_side_score_range (nameA nameB : String) :
    0 ≤ side_score nameA nameB ∧ side_score nameA nameB ≤ 1 := by
  obtain ⟨hj1, hj2⟩ := token_jaccard_bounds (team_tokens nameA) (team_tokens nameB)
  obtain ⟨hd1, hd2⟩ := token_dice_bounds (team_tokens nameA) (team_tokens nameB)
  obtain ⟨hc1, hc2⟩ := team_char_score_bounds nameA nameB
  have htok1 : (0:ℚ) ≤ max (token_jaccard (team_tokens nameA) (team_tokens nameB))
      (token_dice (team_tokens nameA) (team_tokens nameB)) :=
    le_trans hj1 (le_max_left _ _)
  have htok2 : max (token_jaccard (team_tokens nameA) (team_tokens nameB))
      (token_dice (team_tokens nameA) (team_tokens nameB)) ≤ 1 := max_le hj2 hd2
  simp only [side_score]
  refine ⟨le_min (by norm_num) ?_, min_le_left _ _⟩
  split_ifs <;> simp only [min_def] <;> split_ifs <;> linarith

/-- Claim C5: a 1-X-2 set is coherent iff all three prices are present,
each lies in `[1.01, 25]`, and the reciprocal sum lies in `[0.95, 1.90]`;
under `strict_1x2` with keys `{1, X, 2}` only coherent sources are
scanned, so the record `1=1.50, X=1.55, 2=1.60` (reciprocal sum about
1.937) contributes nothing to a strict scan. -/
theorem C5_coherence_gate (rec : Rec) (by_src : List (String × Rec)) :
    ((coherent_1x2_for_source rec).1 = true ↔
      ∃ x y z : ℚ, odGet rec.odds "1" = some x ∧ odGet rec.odds "X" = some y ∧
        odGet rec.odds "2" = some z ∧
        (101/100 ≤ x ∧ x ≤ 25) ∧ (101/100 ≤ y ∧ y ≤ 25) ∧ (101/100 ≤ z ∧ z ≤ 25) ∧
        19/20 ≤ 1/x + 1/y + 1/z ∧ 1/x + 1/y + 1/z ≤ 19/10) ∧
    (best_odds_for_market by_src ["1", "X", "2"] true =
      best_odds_for_market (filter_sources_for_1x2_best by_src) ["1", "X", "2"] false) ∧
    (coherent_1x2_for_source rec_incoherent).1 = false ∧
    best_odds_for_market [("soccer", rec_incoherent)] ["1", "X", "2"] true = [] := by
  have hco : (coherent_1x2_for_source rec_incoherent).1 = false := by
    have h1 : odGet rec_incoherent.odds "1" = some (3/2) := rfl
    have h2 : odGet rec_incoherent.odds "X" = some (31/20) := rfl
    have h3 : odGet rec_incoherent.odds "2" = some (8/5) := rfl
    norm_num [coherent_1x2_for_source, h1, h2, h3, is_plausible_odd]
  refine ⟨?_, ?_, hco, ?_⟩
  · cases h1 : odGet rec.odds "1" with
    | none => simp [coherent_1x2_for_source, h1]
    | some x =>
      cases h2 : odGet rec.odds "X" with
      | none => simp [coherent_1x2_for_source, h1, h2]
      | some y =>
        cases h3 : odGet rec.odds "2" with
        | none => simp [coherent_1x2_for_source, h1, h2, h3]
        | some z =>
          simp only [coherent_1x2_for_source, h1, h2, h3]
          constructor
          · intro h
            split at h
            · next hp =>
              simp only [is_plausible_odd, Bool.and_eq_true, decide_eq_true_eq] at hp
              split at h
              · next hb => exact ⟨x, y, z, rfl, rfl, rfl, hp.1.1, hp.1.2, hp.2, hb.1, hb.2⟩
              · exact absurd h (by simp)
            · exact absurd h (by simp)
          · rintro ⟨x', y', z', hx, hy, hz, hpx, hpy, hpz, hb1, hb2⟩
            rw [Option.some_inj] at hx hy hz
            subst hx
            subst hy
            subst hz
            rw [if_pos (by simp only [is_plausible_odd, Bool.and_eq_true,
                decide_eq_true_eq]; exact ⟨⟨hpx, hpy⟩, hpz⟩),
              if_pos ⟨hb1, hb2⟩]
  · simp only [best_odds_for_market, scan_src_for]
    rw [if_pos (show (true && keys_set_123 ["1", "X", "2"]) = true from by decide),
      if_neg (show ¬ (false && keys_set_123 ["1", "X", "2"]) = true from by decide)]
  · simp only [best_odds_for_market, scan_src_for]
    rw [if_pos (show (true && keys_set_123 ["1", "X", "2"]) = true from by decide)]
    simp only [filter_sources_for_1x2_best, List.filter, hco]
    norm_num [dSet, List.filter]

/-- `_match_ok` accepts the pair `rec_liga` / `rec_bundes`: identical
names and times, league texts `"Liga"` and `"Bundesliga"`. -/
theorem match_ok_liga_bundes : match_ok rec_liga rec_bundes = true := by
  have htf : time_factor "20:00" "20:00" = 1 := by
    unfold time_factor
    rw [show time_to_minutes "20:00" = some 1200 from by decide]
    norm_num [Nat.dist]
  simp only [match_ok,
    show rec_liga.time = "20:00" from rfl, show rec_bundes.time = "20:00" from rfl,
    show rec_liga.league = "Liga" from rfl, show rec_bundes.league = "Bundesliga" from rfl,
    show rec_liga.home = "aab" from rfl, show rec_bundes.home = "aab" from rfl,
    show rec_liga.away = "ccd" from rfl, show rec_bundes.away = "ccd" from rfl, htf]
  rw [if_neg (show ¬¬(times_close "20:00" "20:00" 20 = true) from by decide),
    if_neg (show ¬((1:ℚ) = 0) from by norm_num),
    if_neg (show ¬((league_tokens "Liga").Nonempty ∧ (league_tokens "Bundesliga").Nonempty ∧
      (league_tokens "Liga" ∩ league_tokens "Bundesliga") = ∅ ∧
      fuzzy (league_sig "Liga") (league_sig "Bundesliga") < 1/2) from by
        simp [show league_tokens "Liga" = ∅ from by decide]),
    if_neg (show ¬¬((al_enforced_equal "aab" "aab" && al_enforced_equal "ccd" "ccd" ||
      al_enforced_equal "aab" "ccd" && al_enforced_equal "ccd" "aab") = true) from by decide),
    if_pos (show (al_enforced_equal "aab" "aab" && al_enforced_equal "ccd" "ccd") = true
      from by decide),
    if_pos (show (al_enforced_equal "aab" "ccd" && al_enforced_equal "ccd" "aab") = true
      from by decide),
    ss_aab_aab, ss_ccd_ccd, ss_aab_ccd, ss_ccd_aab,
    if_neg (show ¬(max (((1:ℚ)+1)/2) (((0:ℚ)+0)/2) < 0) from by norm_num [max_def]),
    if_pos (show (53:ℚ)/100 ≤ max (((1:ℚ)+1)/2) (((0:ℚ)+0)/2) * 1 from by
      norm_num [max_def])]

/-- Claim C8 counterexample: both records carry non-empty league text
(`"Liga"` and `"Bundesliga"`), their league token sets do not intersect and
their sorted-token signatures are far below 0.50 similarity, yet the pair
is accepted — the gate fires only when both token sets are non-empty, and
`"Liga"` tokenizes to the empty set. -/
theorem C8_league_gate_cx :
    match_ok rec_liga rec_bundes = true ∧
    rec_liga.league ≠ "" ∧ rec_bundes.league ≠ "" ∧
    league_tokens rec_liga.league ∩ league_tokens rec_bundes.league = ∅ ∧
    fuzzy (league_sig rec_liga.league) (league_sig rec_bundes.league) < 1/2 := by
  refine ⟨match_ok_liga_bundes, by decide, by decide, by decide, ?_⟩
  rw [show league_sig rec_liga.league = "" from by decide,
    show league_sig rec_bundes.league = "bundesliga" from by decide,
    fuzzy_eval "" "bundesliga" 0 (by decide) (by decide)]
  norm_num

/-- Claim C8, amended: for records passing the time gates whose league
TOKEN SETS are both non-empty, `_match_ok` rejects unless the token sets
intersect or the sorted-token signatures are at least 0.50 similar (the
original claim's "non-empty league text" is weakened to "non-empty league
token sets": text made of stop words only, such as `"Liga"`, escapes the
gate). -/
theorem C8_league_gate (a b : Rec)
    (h1 : (league_tokens a.league).Nonempty) (h2 : (league_tokens b.league).Nonempty)
    (h3 : league_tokens a.league ∩ league_tokens b.league = ∅)
    (h4 : fuzzy (league_sig a.league) (league_sig b.league) < 1/2) :
    match_ok a b = false := by
  simp only [match_ok]
  split
  · rfl
  · split
    · rfl
    · rw [if_pos ⟨h1, h2, h3, h4⟩]

set_option maxRecDepth 8000 in
/-- Witness for the amended C8 at leagues `"Bundesliga"` and
`"Ekstraklasa"`. -/
theorem C8_league_gate_witness : match_ok rec_bundes rec_ekstr = false := by
  refine C8_league_gate rec_bundes rec_ekstr (by decide) (by decide) (by decide) ?_
  rw [show league_sig rec_bundes.league = "bundesliga" from by decide,
    show league_sig rec_ekstr.league = "ekstraklasa" from by decide,
    fuzzy_eval "bundesliga" "ekstraklasa" 4 (by decide) (by decide)]
  norm_num

/-- Claim C3: every record retained by `aligned_by_src` is re-labelled with
the canonical pair; when its orientation is `swap` the aligned `1` and `2`
prices are the original `2` and `1` prices and every other market key is
unchanged; when its orientation is `straight` the odds dict is returned
unchanged entirely. -/
theorem C3_orientation (cl : List Rec) (src : String) (r arec : Rec)
    (hr : dGet? (chosen_by_src cl) src = some r)
    (ha : dGet? (aligned_by_src cl) src = some arec) :
    arec.home = (canonical_pair cl).1 ∧ arec.away = (canonical_pair cl).2 ∧
    (orientation_vs_canon r (canonical_pair cl).1 (canonical_pair cl).2 = "swap" →
      odGet arec.odds "1" = odGet r.odds "2" ∧
      odGet arec.odds "2" = odGet r.odds "1" ∧
      ∀ k, k ≠ "1" → k ≠ "2" → odGet arec.odds k = odGet r.odds k) ∧
    (orientation_vs_canon r (canonical_pair cl).1 (canonical_pair cl).2 = "straight" →
      arec.odds = r.odds) := by
  have hmap : dGet? (aligned_by_src cl) src =
      (dGet? (chosen_by_src cl) src).map (alignRec cl) := by
    rw [show aligned_by_src cl = (chosen_by_src cl).map
      (fun p => (p.1, alignRec cl p.2)) from rfl]
    exact dGet?_map_pair (alignRec cl) (chosen_by_src cl) src
  rw [hmap, hr, Option.map_some'] at ha
  have harec : alignRec cl r = arec := Option.some_inj.1 ha
  subst harec
  refine ⟨rfl, rfl, fun hsw => ?_, fun hst => ?_⟩
  · have hodds : (alignRec cl r).odds =
        dSet (dSet r.odds "1" (odGet r.odds "2")) "2" (odGet r.odds "1") := by
      show swap_1x2_if_needed r.odds
        (orientation_vs_canon r (canonical_pair cl).1 (canonical_pair cl).2) = _
      rw [hsw]
      simp [swap_1x2_if_needed]
    rw [hodds]
    exact ⟨odGet_swap_one r.odds, odGet_swap_two r.odds,
      fun k h1 h2 => odGet_swap_other r.odds k h1 h2⟩
  · show (alignRec cl r).odds = r.odds
    show swap_1x2_if_needed r.odds
      (orientation_vs_canon r (canonical_pair cl).1 (canonical_pair cl).2) = r.odds
    rw [hst]
    simp [swap_1x2_if_needed]

/-- `_orientation_vs_canon` of `rec_swap` against the canonical pair
`(aab, ccd)` is `swap`. -/
theorem ori_rec_swap : orientation_vs_canon rec_swap "aab" "ccd" = "swap" := by
  simp only [orientation_vs_canon,
    show rec_swap.home = "ccd" from rfl, show rec_swap.away = "aab" from rfl]
  rw [if_neg (by decide), if_neg (by decide), ss_ccd_aab, ss_aab_ccd, ss_ccd_ccd,
    ss_aab_aab,
    if_neg (by norm_num : ¬(((1:ℚ) + 1)/2 ≤ ((0:ℚ) + 0)/2))]

/-- Witness for C3: in the two-record cluster `[rec_t2000, rec_swap]`, the
`merkur` record is retained in the reversed orientation and its aligned
odds carry the `1`-`2` swap and the canonical labels. -/
theorem C3_orientation_witness :
    orientation_vs_canon rec_swap (canonical_pair [rec_t2000, rec_swap]).1
      (canonical_pair [rec_t2000, rec_swap]).2 = "swap" ∧
    ∃ arec : Rec, dGet? (aligned_by_src [rec_t2000, rec_swap]) "merkur" = some arec ∧
      arec.home = (canonical_pair [rec_t2000, rec_swap]).1 ∧
      arec.away = (canonical_pair [rec_t2000, rec_swap]).2 ∧
      odGet arec.odds "1" = odGet rec_swap.odds "2" ∧
      odGet arec.odds "2" = odGet rec_swap.odds "1" ∧
      odGet arec.odds "X" = odGet rec_swap.odds "X" := by
  have hcp1 : (canonical_pair [rec_t2000, rec_swap]).1 = "aab" := rfl
  have hcp2 : (canonical_pair [rec_t2000, rec_swap]).2 = "ccd" := rfl
  have hori : orientation_vs_canon rec_swap (canonical_pair [rec_t2000, rec_swap]).1
      (canonical_pair [rec_t2000, rec_swap]).2 = "swap" := by
    rw [hcp1, hcp2]
    exact ori_rec_swap
  have hr : dGet? (chosen_by_src [rec_t2000, rec_swap]) "merkur" = some rec_swap := rfl
  have ha : dGet? (aligned_by_src [rec_t2000, rec_swap]) "merkur" =
      some (alignRec [rec_t2000, rec_swap] rec_swap) := by
    rw [show aligned_by_src [rec_t2000, rec_swap] = (chosen_by_src [rec_t2000, rec_swap]).map
      (fun p => (p.1, alignRec [rec_t2000, rec_swap] p.2)) from rfl]
    rw [dGet?_map_pair (alignRec [rec_t2000, rec_swap]) (chosen_by_src [rec_t2000, rec_swap])
      "merkur", hr, Option.map_some']
  have h := C3_orientation [rec_t2000, rec_swap] "merkur" rec_swap _ hr ha
  obtain ⟨hh, haw, hswap, _⟩ := h
  obtain ⟨h1, h2, hk⟩ := hswap hori
  exact ⟨hori, alignRec [rec_t2000, rec_swap] rec_swap, ha, hh, haw, h1, h2,
    hk "X" (by decide) (by decide)⟩

/-- Claim C9: for each requested market key, `best_odds_for_market`
returns the maximum scanned price inside the plausibility band
`[1.01, 25.0]` together with its contributing source; implausible or
absent prices are skipped exactly as if absent, and a key with no
plausible price at all (or an unrequested key) is omitted from the
returned mapping; a plausible price from a properly labelled source
guarantees the key is present. -/
theorem C9_best_odds (by_src : List (String × Rec)) (keys : List String)
    (strict_1x2 : Bool) (k : String) :
    (∀ v lbl, dGet? (best_odds_for_market by_src keys strict_1x2) k = some (v, lbl) →
      (∃ p ∈ scan_src_for by_src keys strict_1x2, odGet p.2.odds k = some v ∧
        is_plausible_odd (some v) = true ∧ lbl = src_label p.1) ∧
      (∀ p ∈ scan_src_for by_src keys strict_1x2, ∀ w, odGet p.2.odds k = some w →
        is_plausible_odd (some w) = true → w ≤ v)) ∧
    (k ∈ keys →
      (∀ p ∈ scan_src_for by_src keys strict_1x2, ∀ w, odGet p.2.odds k = some w →
        is_plausible_odd (some w) = false) →
      dGet? (best_odds_for_market by_src keys strict_1x2) k = none) ∧
    (k ∉ keys → dGet? (best_odds_for_market by_src keys strict_1x2) k = none) ∧
    (k ∈ keys → (∀ p ∈ scan_src_for by_src keys strict_1x2, p.1 ≠ "") →
      (∃ p ∈ scan_src_for by_src keys strict_1x2, ∃ w, odGet p.2.odds k = some w ∧
        is_plausible_odd (some w) = true) →
      ∃ v lbl, dGet? (best_odds_for_market by_src keys strict_1x2) k = some (v, lbl)) :=
  best_odds_spec (scan_src_for by_src keys strict_1x2) keys k

/-- Witness for C9 on a one-source scan quoting `1=2, X=3, 2=4` (and a
variant quoting only the implausible `1=100`). -/
theorem C9_best_odds_witness :
    (∃ p ∈ scan_src_for [("soccer", rec_t2000)] ["1", "X", "2"] false,
      odGet p.2.odds "1" = some 2 ∧ is_plausible_odd (some 2) = true ∧
      "Soccer" = src_label p.1) ∧
    dGet? (best_odds_for_market [("soccer", rec_t2000)] ["1", "X", "2"] false) "GG" = none ∧
    dGet? (best_odds_for_market [("soccer", rec_hi)] ["1", "X", "2"] false) "1" = none ∧
    (∃ v lbl, dGet? (best_odds_for_market [("soccer", rec_t2000)] ["1", "X", "2"] false) "1" =
      some (v, lbl)) := by
  have hv : dGet? (best_odds_for_market [("soccer", rec_t2000)] ["1", "X", "2"] false) "1" =
      some (2, "Soccer") := by
    have hnd1 : ((([(("soccer" : String), rec_t2000)].foldl (bom_update ["1", "X", "2"])
        (["1", "X", "2"].foldl (fun b k' => dSet b k' ((0 : ℚ), "")) [])).map
        Prod.fst)).Nodup :=
      nodup_keys_scan_fold ["1", "X", "2"] _ _ (nodup_keys_best0 ["1", "X", "2"] [] (by simp))
    have h0 : dGet? (["1", "X", "2"].foldl (fun b k' => dSet b k' ((0 : ℚ), "")) []) "1" =
        some ((0 : ℚ), "") := by
      rw [best0_lookup ["1", "X", "2"] [] "1", if_pos (by decide)]
    have hstep : best_for_key [("soccer", rec_t2000)] "1" ((0 : ℚ), "") = (2, "Soccer") := by
      show bom_step ("soccer", rec_t2000) "1" ((0 : ℚ), "") = (2, "Soccer")
      unfold bom_step
      rw [show odGet ("soccer", rec_t2000).2.odds "1" = some 2 from rfl]
      dsimp only
      rw [if_pos (show (is_plausible_odd (some (2 : ℚ)) &&
          decide (((0 : ℚ), "").1 < 2)) = true by
        simp only [Bool.and_eq_true, decide_eq_true_eq]
        exact ⟨by norm_num [is_plausible_odd], by norm_num⟩)]
      rfl
    show dGet? (([(("soccer" : String), rec_t2000)].foldl (bom_update ["1", "X", "2"])
      (["1", "X", "2"].foldl (fun b k' => dSet b k' ((0 : ℚ), "")) [])).filter
      (fun kv => 0 < kv.2.1 && kv.2.2 ≠ "")) "1" = some (2, "Soccer")
    rw [dGet?_filter _ _ _ hnd1,
      scan_fold_lookup_mem ["1", "X", "2"] "1" (by decide) [("soccer", rec_t2000)] _ _ h0,
      hstep]
    norm_num
    intro h
    exact absurd h (by decide)
  have hcodes : ∀ p ∈ scan_src_for [("soccer", rec_t2000)] ["1", "X", "2"] false, p.1 ≠ "" := by
    intro p hp
    have hp' : p = ("soccer", rec_t2000) := by simpa [scan_src_for] using hp
    subst hp'
    decide
  have hno : ∀ p ∈ scan_src_for [("soccer", rec_hi)] ["1", "X", "2"] false,
      ∀ w : ℚ, odGet p.2.odds "1" = some w → is_plausible_odd (some w) = false := by
    intro p hp w hw
    have hp' : p = ("soccer", rec_hi) := by simpa [scan_src_for] using hp
    subst hp'
    rw [show odGet ("soccer", rec_hi).2.odds "1" = some 100 from rfl] at hw
    have hw' : (100 : ℚ) = w := Option.some_inj.1 hw
    rw [← hw']
    norm_num [is_plausible_odd]
  refine ⟨?_, ?_, ?_, ?_⟩
  · exact (((C9_best_odds [("soccer", rec_t2000)] ["1", "X", "2"] false "1").1) 2 "Soccer" hv).1
  · exact (C9_best_odds [("soccer", rec_t2000)] ["1", "X", "2"] false "GG").2.2.1 (by decide)
  · exact (C9_best_odds [("soccer", rec_hi)] ["1", "X", "2"] false "1").2.1 (by decide) hno
  · exact (C9_best_odds [("soccer", rec_t2000)] ["1", "X", "2"] false "1").2.2.2 (by decide)
      hcodes ⟨("soccer", rec_t2000), by simp [scan_src_for], 2, rfl,
        by norm_num [is_plausible_odd]⟩

/-- Claim C1: for every input list of records, `cluster_all_sources` returns
a partition of the input: the concatenation of the returned clusters is a
permutation of the input record list, so every input record (counted with
multiplicity) appears in exactly one cluster — none omitted, none placed in
two clusters — and singleton clusters are valid outputs. -/
theorem C1_cluster_partition (records : List Rec) :
    (cluster_all_sources records).flatten.Perm records := by
  show ((cluster_comps records).map
    (fun comp => comp.map (fun k => records.getD k default))).flatten.Perm records
  rw [flatten_map_map]
  have hp := (cluster_comps_flatten_perm records).map
    (fun k => records.getD k default)
  rw [map_getD_range records] at hp
  exact hp

end Arbitrage
